import Mathlib

/-!
Shallow embedding of the `emailparser` package of mailhonor/go-email
(files `emailparser.go`, `MimeValueParams.go`, `MimeAddress.go`).

Conventions of the embedding:
* Go `[]byte` and Go `string` (which is an immutable byte string) are both
  modelled as `List Byte` with `Byte := Nat` (values < 256 in practice).
* Go text helpers (`strings.ToUpper`, `unicode.IsSpace`, `bytes.TrimSpace`)
  are modelled at the ASCII level; every input exercised by the claims is
  7-bit ASCII, where the Go functions and the models below agree.
* Loops whose termination is not structural are given explicit fuel; every
  wrapper passes fuel that strictly exceeds the possible iteration count, and
  all general theorems are proved for every fuel value.
* Code that would panic in Go (out-of-range slicing) is modelled with
  `Option`: `none` is a runtime panic.
* External collaborators (charset transcoding, quoted-printable decoding,
  RFC 5322 date parsing — see spec §6) are passed in as an `Externals` record
  of abstract functions.
-/

set_option linter.unusedVariables false

abbrev Byte := Nat

/-- ASCII bytes of a literal (all literals used below are 7-bit ASCII). -/
def bytesOf (s : String) : List Byte := s.data.map Char.toNat

/-- Go `bytes.HasPrefix(s, pre)`. -/
def bytesHasPre : List Byte → List Byte → Bool
  | _, [] => true
  | [], _ :: _ => false
  | a :: s, b :: pre => a == b && bytesHasPre s pre

/-- Go `bytes.Index(s, pat)` / `strings.Index`: index of the first occurrence
of `pat` in `s`, `none` for Go's `-1`. -/
def bIndex : List Byte → List Byte → Option Nat
  | s, pat =>
    match s with
    | [] => if pat.isEmpty then some 0 else none
    | _ :: rest => if bytesHasPre s pat then some 0 else (bIndex rest pat).map (· + 1)

/-- Go `bytes.IndexByte(s, c)`. -/
def bIndexByte : List Byte → Byte → Option Nat
  | [], _ => none
  | a :: rest, c => if a == c then some 0 else (bIndexByte rest c).map (· + 1)

/-- Go `bytes.Contains` / `strings.Contains`. -/
def bContains (s pat : List Byte) : Bool := (bIndex s pat).isSome

/-- Go `unicode.IsSpace` restricted to ASCII: space, \t, \n, \v, \f, \r. -/
def isGoSpace (b : Byte) : Bool :=
  b == 32 || b == 9 || b == 10 || b == 11 || b == 12 || b == 13

/-- Uppercase one ASCII byte; Go's `strings.ToUpper` acts like this on
ASCII letters and leaves other ASCII bytes unchanged. -/
def toUpperByte (b : Byte) : Byte := if 97 ≤ b && b ≤ 122 then b - 32 else b

/-- Go `strings.ToUpper` / `bytes.ToUpper` on ASCII data. -/
def toUpperBytes (l : List Byte) : List Byte := l.map toUpperByte

/-- Drop bytes satisfying `p` from the left (Go `bytes.TrimLeftFunc`). -/
def trimLeftBy (p : Byte → Bool) (l : List Byte) : List Byte := l.dropWhile p

/-- Drop bytes satisfying `p` from the right (Go `bytes.TrimRightFunc`). -/
def trimRightBy (p : Byte → Bool) (l : List Byte) : List Byte :=
  (l.reverse.dropWhile p).reverse

/-- Go `bytes.TrimSpace` / `strings.TrimSpace` on ASCII data. -/
def trimSpaceBytes (l : List Byte) : List Byte :=
  trimRightBy isGoSpace (trimLeftBy isGoSpace l)

/-- Membership of a byte in a cutset string. -/
def inCutset (cs : List Byte) (b : Byte) : Bool := cs.contains b

/-- Modelled from the spec: component C1 "byte utilities — trim/skip/concat
over byte slices" lives in the external go-utils module.
`TrimBytes(l, cutset)` removes bytes of the cutset from both ends. -/
def trimBytesGU (l cs : List Byte) : List Byte :=
  trimRightBy (inCutset cs) (trimLeftBy (inCutset cs) l)

/-- Modelled from the spec: go-utils `TrimLeftBytes(l, cutset)`. -/
def trimLeftBytesGU (l cs : List Byte) : List Byte := trimLeftBy (inCutset cs) l

/-- Modelled from the spec: go-utils `TrimRightBytes(l, cutset)`. -/
def trimRightBytesGU (l cs : List Byte) : List Byte := trimRightBy (inCutset cs) l

/-- Modelled from the spec: go-utils `ConcatByteSlices`. -/
def concatByteSlices (ls : List (List Byte)) : List Byte := ls.flatten

/-- Go slice expression `l[lo:hi]` for indices already known to be in range. -/
def listSlice {α} (l : List α) (lo hi : Nat) : List α := (l.drop lo).take (hi - lo)

/-- Go `strconv.Itoa` (for the RFC 2231 continuation keys `k*0*`, `k*1*`, …). -/
def natToBytes (n : Nat) : List Byte := bytesOf (toString n)

/-- External collaborators of the parser (spec §6): charset transcoding,
quoted-printable decoding, RFC 5322 date parsing.  They are imported
interfaces, so the embedding abstracts over them. -/
structure Externals where
  convertToUTF8 : List Byte → List Byte → List Byte → String
  qpDecodeHeader : List Byte → List Byte
  qpDecodeBody : List Byte → List Byte
  parseDateUnix : List Byte → Option Int

/-- Struct `MimeLine` (one parsed header line). -/
structure MimeLine where
  name : List Byte
  value : List Byte
  deriving DecidableEq, Repr

/-- Struct `MimeValueParams`: principal value plus parameter map.  The Go
`map[string][]byte` is an association list here; `ParseMimeValueParams_parseParams`
only ever inserts a key that is absent, so first-match lookup coincides with
Go map lookup. -/
structure MimeValueParams where
  value : List Byte
  params : List (List Byte × List Byte)
  deriving DecidableEq, Repr

/-- Lookup in the association-list rendering of a Go map. -/
def mapLookup (m : List (List Byte × List Byte)) (k : List Byte) : Option (List Byte) :=
  match m with
  | [] => none
  | (k', v) :: rest => if k' = k then some v else mapLookup rest k

/-- Go `m[k] = v` executed only when `k` is absent (the only write pattern in
`ParseMimeValueParams_parseParams`). -/
def mapInsertIfAbsent (m : List (List Byte × List Byte)) (k v : List Byte) :
    List (List Byte × List Byte) :=
  if (mapLookup m k).isSome then m else m ++ [(k, v)]

/-- Helper of `ParseMimeValueParams_unescapeQuotedBytes`: the Go loop over `b`
keeping `\"` and `\\` as escapes. -/
def unescapeQuotedBytes : List Byte → List Byte
  | [] => []
  | 92 :: c :: rest =>
    if c == 34 || c == 92 then c :: unescapeQuotedBytes rest
    else 92 :: unescapeQuotedBytes (c :: rest)
  | b :: rest => b :: unescapeQuotedBytes rest

/-- Search for the closing quote of a quoted value: first index `i ≥ 1` with
`content[i] = '"'` and `content[i-1] ≠ '\\'` (the Go loops in
`ParseMimeValueParams_parseValue` and `..._parseQuotedParamValue`).
`prev` is `content[i-1]`, `i` the current index. -/
def findCloseQuote (prev : Byte) (i : Nat) : List Byte → Option Nat
  | [] => none
  | c :: rest => if c == 34 && prev != 92 then some i else findCloseQuote c (i + 1) rest

/-- Go `bytes.TrimSuffix(l, [c])`. -/
def trimSuffixByte (l : List Byte) (c : Byte) : List Byte :=
  match l.getLast? with
  | some b => if b == c then l.dropLast else l
  | none => l

/-- First index whose byte is `;` or ASCII whitespace (the terminator scan of
the unquoted-value loops). -/
def semiOrSpaceIdx : List Byte → Option Nat
  | [] => none
  | b :: rest =>
    if b == 59 || isGoSpace b then some 0 else (semiOrSpaceIdx rest).map (· + 1)

/-- `ParseMimeValueParams_parseUnquotedParamValue`: value up to the first `;`
or whitespace; returns (value, consumed length). -/
def parseUnquotedParamValue (content : List Byte) : List Byte × Nat :=
  match semiOrSpaceIdx content with
  | some i => (content.take i, i)
  | none => (content, content.length)

/-- `ParseMimeValueParams_parseQuotedParamValue`. -/
def parseQuotedParamValue (content : List Byte) : List Byte × Nat :=
  match content with
  | 34 :: rest =>
    match findCloseQuote 34 1 rest with
    | some closeIdx => (unescapeQuotedBytes (listSlice content 1 closeIdx), closeIdx + 1)
    | none => (unescapeQuotedBytes (trimSuffixByte rest 34), content.length)
  | _ => parseUnquotedParamValue content

/-- `ParseMimeValueParams_parseValue`: principal value; returns the value and
the position where parameter parsing resumes.  Its quoted branch is byte-for-
byte the same algorithm as `parseQuotedParamValue`; the unquoted branch is the
same terminator scan as `parseUnquotedParamValue`. -/
def parseMimeValue (content : List Byte) : List Byte × Nat :=
  match content with
  | 34 :: rest =>
    match findCloseQuote 34 1 rest with
    | some closeIdx => (unescapeQuotedBytes (listSlice content 1 closeIdx), closeIdx + 1)
    | none => (unescapeQuotedBytes (trimSuffixByte rest 34), content.length)
  | _ =>
    match semiOrSpaceIdx content with
    | some i => (content.take i, i)
    | none => (content, content.length)

/-- `ParseMimeValueParams_skipToNextParam`: skip to the byte after the next
`;`, then drop whitespace. -/
def skipToNextParam (content : List Byte) : List Byte :=
  match bIndexByte content 59 with
  | none => []
  | some i => trimLeftBy isGoSpace (content.drop (i + 1))

/-- Length of the parameter-name prefix: bytes until `=`, `;` or whitespace. -/
def paramNameEnd : List Byte → Nat
  | [] => 0
  | b :: rest => if b == 61 || b == 59 || isGoSpace b then 0 else paramNameEnd rest + 1

/-- The loop of `ParseMimeValueParams_parseParams`.  `fuel` strictly exceeds
the iteration count whenever `fuel > current.length` (each iteration consumes
at least one byte of `current`). -/
def parseParamsLoop : Nat → List Byte → List (List Byte × List Byte) →
    List (List Byte × List Byte)
  | 0, _, m => m
  | _ + 1, [], m => m
  | fuel + 1, current, m =>
    let nameEnd := paramNameEnd current
    let name := trimSpaceBytes (current.take nameEnd)
    if name.isEmpty then
      parseParamsLoop fuel (skipToNextParam (current.drop nameEnd)) m
    else
      let cur1 := trimLeftBy isGoSpace (current.drop nameEnd)
      if cur1.isEmpty || cur1.headD 0 != 61 then
        parseParamsLoop fuel (skipToNextParam cur1) m
      else
        let cur2 := trimLeftBy isGoSpace (cur1.drop 1)
        let vv :=
          if !cur2.isEmpty && cur2.headD 0 == 34 then parseQuotedParamValue cur2
          else parseUnquotedParamValue cur2
        let m' := mapInsertIfAbsent m (toUpperBytes name) vv.1
        parseParamsLoop fuel (skipToNextParam (cur2.drop vv.2)) m'

/-- `ParseMimeValueParams(data)`. -/
def ParseMimeValueParams (data : List Byte) : MimeValueParams :=
  let content := trimLeftBytesGU data (bytesOf " \t")
  if content.isEmpty then { value := [], params := [] }
  else
    let r := parseMimeValue content
    if r.2 < content.length then
      let paramsContent :=
        trimLeftBy (fun b => b == 59 || isGoSpace b) (content.drop r.2)
      { value := r.1, params := parseParamsLoop (paramsContent.length + 1) paramsContent [] }
    else
      { value := r.1, params := [] }

/-- Method `TrimmedParam`: trimmed value of a parameter, empty when absent. -/
def MimeValueParams.TrimmedParam (m : MimeValueParams) (key : List Byte) : List Byte :=
  match mapLookup m.params (toUpperBytes key) with
  | some v => trimBytesGU v (bytesOf "\r\n\t \"'")
  | none => []

/-- Intermediate token of `ParseMimeValueTokenNodes` (Go `tokenNodeWithEncoding`). -/
structure TokenNodeWE where
  charset : List Byte
  data : List Byte
  encoding : List Byte
  deriving DecidableEq, Repr

/-- Final token (Go `MimeValueTokenNode`). -/
structure MimeValueTokenNode where
  data : List Byte
  charset : List Byte
  deriving DecidableEq, Repr

/-- The `push` closure of `ParseMimeValueTokenNodes`: append a token, merging
it into the previous one when both carry the same non-empty charset and the
same encoding. -/
def pmvtnPush (rs : List TokenNodeWE) (item : TokenNodeWE) : List TokenNodeWE :=
  if item.charset.isEmpty || rs.isEmpty then rs ++ [item]
  else
    let last := rs.getLastD ⟨[], [], []⟩
    if last.charset == item.charset && last.encoding == item.encoding then
      rs.dropLast ++ [{ last with data := last.data ++ item.data }]
    else rs ++ [item]

/-- `lineBufferFindChar(bf, " \t")`: first index of a space or tab. -/
def lineBufferFindChar : List Byte → Option Nat
  | [] => none
  | b :: rest => if b == 32 || b == 9 then some 0 else (lineBufferFindChar rest).map (· + 1)

/-- The scanning loop of `ParseMimeValueTokenNodes`.  One fuel unit is one Go
loop iteration; an iteration either terminates, shrinks `bfBegin`, or retries
once with `magicOffset = 2` before shrinking, so `2 * length + 4` fuel always
suffices. -/
def pmvtnLoop : Nat → List Byte → Nat → List TokenNodeWE → List TokenNodeWE
  | 0, _, _, rs => rs
  | fuel + 1, bfBegin, magicOffset, rs =>
    if bfBegin.isEmpty then rs
    else
      let bf := bfBegin
      match (bIndex (bf.drop magicOffset) (bytesOf "=?")).map (· + magicOffset) with
      | none => pmvtnPush rs ⟨[], bf, []⟩
      | some pos =>
        let rs := if pos > 0 then pmvtnPush rs ⟨[], bf.take pos, []⟩ else rs
        let bf := bf.drop pos
        let bfBegin := bf
        let bf := bf.drop 2
        match bIndexByte bf 63 with
        | none => pmvtnLoop fuel bfBegin 2 rs
        | some csEnd =>
          if csEnd < 2 then pmvtnLoop fuel bfBegin 2 rs
          else
            let charset := toUpperBytes (bf.take csEnd)
            let bf := bf.drop (csEnd + 1)
            if bf.length < 4 then pmvtnLoop fuel bfBegin 2 rs
            else
              let encoding := toUpperBytes (bf.take 1)
              if encoding != bytesOf "B" && encoding != bytesOf "Q" then
                pmvtnLoop fuel bfBegin 2 rs
              else if bf.getD 1 0 != 63 then pmvtnLoop fuel bfBegin 2 rs
              else
                let bf := bf.drop 2
                match bIndex bf (bytesOf "?=") with
                | some dEnd =>
                  pmvtnLoop fuel (bf.drop (dEnd + 2)) 0
                    (pmvtnPush rs ⟨charset, bf.take dEnd, encoding⟩)
                | none =>
                  match lineBufferFindChar bf with
                  | some wEnd =>
                    pmvtnLoop fuel (bf.drop wEnd) 0
                      (pmvtnPush rs ⟨charset, bf.take wEnd, encoding⟩)
                  | none => pmvtnPush rs ⟨charset, bf, encoding⟩

/-- Value of one standard-base64 alphabet byte. -/
def b64Val (c : Byte) : Option Nat :=
  if 65 ≤ c && c ≤ 90 then some (c - 65)
  else if 97 ≤ c && c ≤ 122 then some (c - 97 + 26)
  else if 48 ≤ c && c ≤ 57 then some (c - 48 + 52)
  else if c == 43 then some 62
  else if c == 47 then some 63
  else none

/-- Models Go `encoding/base64` `StdEncoding.DecodeString`: after filtering
`\r`/`\n` (which the Go decoder ignores), decode 4-byte quanta; a final quantum
may carry one or two `=` padding bytes.  On malformed input Go returns the
bytes decoded so far together with an error that every caller in this package
discards, so the model simply returns that prefix. -/
def base64StdDecodeRaw : List Byte → List Byte
  | c0 :: c1 :: c2 :: c3 :: rest =>
    match b64Val c0, b64Val c1 with
    | some v0, some v1 =>
      if c2 == 61 && c3 == 61 then [v0 * 4 + v1 / 16]
      else
        match b64Val c2 with
        | some v2 =>
          if c3 == 61 then [v0 * 4 + v1 / 16, (v1 % 16) * 16 + v2 / 4]
          else
            match b64Val c3 with
            | some v3 =>
              (v0 * 4 + v1 / 16) :: ((v1 % 16) * 16 + v2 / 4) :: ((v2 % 4) * 64 + v3) ::
                base64StdDecodeRaw rest
            | none => []
        | none => []
    | _, _ => []
  | _ => []

/-- Go `base64.StdEncoding.DecodeString` (see `base64StdDecodeRaw`). -/
def base64StdDecode (l : List Byte) : List Byte :=
  base64StdDecodeRaw (l.filter (fun c => !(c == 13 || c == 10)))

/-- The loop of `decodeHeaderBase64`: split the data at runs of `=` and decode
each piece independently.  Each iteration consumes at least one byte, so
`length + 1` fuel suffices. -/
def decodeHeaderBase64Loop : Nat → List Byte → List (List Byte)
  | 0, _ => []
  | _ + 1, [] => []
  | fuel + 1, b =>
    match bIndex b (bytesOf "=") with
    | none => [base64StdDecode b]
    | some pos =>
      let pos := pos + 1
      let pos := pos + ((b.drop pos).takeWhile (· == 61)).length
      base64StdDecode (b.take pos) :: decodeHeaderBase64Loop fuel (b.drop pos)

/-- `decodeHeaderBase64(data)`. -/
def decodeHeaderBase64 (data : List Byte) : List Byte :=
  concatByteSlices (decodeHeaderBase64Loop (data.length + 1) data)

/-- `ParseMimeValueTokenNodes(line)`: tokenise then decode each token
according to its encoding. -/
def ParseMimeValueTokenNodes (ext : Externals) (line : List Byte) :
    List MimeValueTokenNode :=
  let rs := pmvtnLoop (2 * line.length + 4) line 0 []
  rs.map (fun item =>
    let data :=
      if item.encoding = bytesOf "B" then decodeHeaderBase64 item.data
      else if item.encoding = bytesOf "Q" then ext.qpDecodeHeader item.data
      else item.data
    { charset := item.charset, data := data })

/-- Go `regexp \^[\da-fA-F]{2}$\` applied to a two-byte candidate. -/
def isHexByte (c : Byte) : Bool :=
  (48 ≤ c && c ≤ 57) || (65 ≤ c && c ≤ 70) || (97 ≤ c && c ≤ 102)

/-- Hex digit value (the `switch` inside `ParseMimeValueTokenNodes2231`). -/
def hexVal (c : Byte) : Nat :=
  if 48 ≤ c && c ≤ 57 then c - 48
  else if 65 ≤ c && c ≤ 70 then c - 65 + 10
  else if 97 ≤ c && c ≤ 102 then c - 97 + 10
  else 0

/-- The percent-decoding loop of `ParseMimeValueTokenNodes2231`: `%HH` with two
hex digits becomes one byte (the Go guard `i+2 < len(str)` requires two bytes
after the `%`); everything else is copied. -/
def pctDecode : List Byte → List Byte
  | 37 :: h1 :: h2 :: rest =>
    if isHexByte h1 && isHexByte h2 then (hexVal h1 * 16 + hexVal h2) :: pctDecode rest
    else 37 :: pctDecode (h1 :: h2 :: rest)
  | b :: rest => b :: pctDecode rest
  | [] => []

/-- `ParseMimeValueTokenNodes2231(line, withCharset)`. -/
def ParseMimeValueTokenNodes2231 (ext : Externals) (line : List Byte)
    (withCharset : Bool) : List MimeValueTokenNode :=
  if !withCharset then ParseMimeValueTokenNodes ext line
  else
    match bIndexByte line 39 with
    | none => [{ charset := [], data := line }]
    | some pos =>
      let charset := toUpperBytes (trimSpaceBytes (line.take pos))
      let bf := line.drop (pos + 1)
      let bf :=
        match bIndexByte bf 39 with
        | some pos2 => bf.drop (pos2 + 1)
        | none => bf
      [{ charset := charset, data := pctDecode bf }]

/-- `ParseMimeValueString(line, defaultCharset)`. -/
def ParseMimeValueString (ext : Externals) (line defaultCharset : List Byte) : String :=
  (ParseMimeValueTokenNodes ext line).foldl
    (fun r node => r ++ ext.convertToUTF8 node.data node.charset defaultCharset) ""

/-- `ParseMimeValueString2231(line, withCharset, defaultCharset)`. -/
def ParseMimeValueString2231 (ext : Externals) (line : List Byte) (withCharset : Bool)
    (defaultCharset : List Byte) : String :=
  (ParseMimeValueTokenNodes2231 ext line withCharset).foldl
    (fun r node => r ++ ext.convertToUTF8 node.data node.charset defaultCharset) ""

/-- The continuation-collecting loop of `ParseParamStringValue` (`for i := 1; ; i++`):
collect `key*i*` (or `key*i`) while present.  The map holds finitely many keys,
so `params.length + 1` fuel always suffices. -/
def collectContinuations (params : List (List Byte × List Byte)) (key : List Byte)
    (star : Bool) : Nat → Nat → List (List Byte)
  | 0, _ => []
  | fuel + 1, i =>
    let k := key ++ bytesOf "*" ++ natToBytes i ++ (if star then bytesOf "*" else [])
    match mapLookup params k with
    | none => []
    | some v => v :: collectContinuations params key star fuel (i + 1)

/-- Method `ParseParamStringValue(key, defaultCharset)`. -/
def MimeValueParams.ParseParamStringValue (m : MimeValueParams) (ext : Externals)
    (key defaultCharset : List Byte) : String :=
  let key := toUpperBytes key
  match mapLookup m.params key with
  | some v => ParseMimeValueString ext v defaultCharset
  | none =>
    match mapLookup m.params (key ++ bytesOf "*") with
    | some v =>
      let count := (v.filter (· == 39)).length
      ParseMimeValueString2231 ext v (count == 2) defaultCharset
    | none =>
      match mapLookup m.params (key ++ bytesOf "*0*") with
      | some v =>
        let vals := v :: collectContinuations m.params key true (m.params.length + 1) 1
        ParseMimeValueString2231 ext (concatByteSlices vals) true defaultCharset
      | none =>
        match mapLookup m.params (key ++ bytesOf "*0") with
        | some v =>
          let vals := v :: collectContinuations m.params key false (m.params.length + 1) 1
          ParseMimeValueString2231 ext (concatByteSlices vals) false defaultCharset
        | none => ""

/-- Struct `boundaryPos`: one scanned delimiter line.  Go field `End` is
called `stop` here (`end` is reserved in Lean). -/
structure BoundaryPos where
  boundary : List Byte
  start : Nat
  stop : Nat
  deriving DecidableEq, Repr

/-- Default `boundaryPos` used for list indexing (never reached on the indices
produced by `matchedIdx`, which are in range by construction). -/
def bpDefault : BoundaryPos := ⟨[], 0, 0⟩

/-- The loop of `scanAllBoundaries`.  `offset` strictly grows by at least 3
per iteration, so `raw.length + 1` fuel always suffices. -/
def scanBoundariesLoop : Nat → List Byte → Nat → List BoundaryPos
  | 0, _, _ => []
  | fuel + 1, raw, offset =>
    if offset < raw.length then
      let startOpt :=
        if bytesHasPre (raw.drop offset) (bytesOf "--") then some offset
        else
          match bIndex (raw.drop offset) (bytesOf "\n--") with
          | none => none
          | some nlPos => some (offset + nlPos + 1)
      match startOpt with
      | none => []
      | some start =>
        let boundaryStart := start + 2
        match bIndex (raw.drop boundaryStart) (bytesOf "\n") with
        | none => []
        | some nlPos =>
          if boundaryStart + nlPos > raw.length then []
          else
            let boundaryEnd := boundaryStart + nlPos
            let token := trimSpaceBytes (listSlice raw boundaryStart boundaryEnd)
            ⟨token, start, boundaryEnd + 1⟩ :: scanBoundariesLoop fuel raw (boundaryEnd + 1)
    else []

/-- `scanAllBoundaries(raw)`: the single linear pre-pass over the raw email. -/
def scanAllBoundaries (raw : List Byte) : List BoundaryPos :=
  scanBoundariesLoop (raw.length + 1) raw 0

/-- `emailParserAppendOneLine(lines, lineData)`: split one logical header line
at the first `:`. -/
def emailParserAppendOneLine (lines : List MimeLine) (lineData : List Byte) :
    List MimeLine :=
  match bIndex lineData (bytesOf ":") with
  | none => lines ++ [⟨toUpperBytes (trimSpaceBytes lineData), []⟩]
  | some pos =>
    lines ++ [⟨toUpperBytes (trimSpaceBytes (lineData.take pos)),
               trimSpaceBytes (lineData.drop (pos + 1))⟩]

/-- The header-reading loop of `parseMimeSelf` (Go lines 227-254).  State is
(accumulated header lines, pending logical line, remaining data); one fuel unit
is one iteration, and each iteration with nonempty data consumes at least one
byte, so `length + 2` fuel always suffices. -/
def headerLoop : Nat → List MimeLine → List Byte → List Byte →
    List MimeLine × List Byte × List Byte
  | 0, headers, logicLine, dat => (headers, logicLine, dat)
  | fuel + 1, headers, logicLine, dat =>
    if dat.isEmpty then (headers, logicLine, dat)
    else
      let idxOpt := bIndex dat (bytesOf "\n")
      let line := match idxOpt with | none => dat | some idx => dat.take (idx + 1)
      let rest := match idxOpt with | none => [] | some idx => dat.drop (idx + 1)
      let step :=
        if !line.isEmpty && (line.headD 0 == 32 || line.headD 0 == 9) then
          (headers, logicLine ++ line.drop 1)
        else
          ((if logicLine.isEmpty then headers else emailParserAppendOneLine headers logicLine),
           line)
      let headers' := step.1
      let logicLine' := trimRightBytesGU step.2 (bytesOf "\r\n")
      match idxOpt with
      | none => headerLoop fuel headers' logicLine' rest
      | some idx =>
        if idx == 0 then (headers', logicLine', rest)
        else if idx == 1 && line.headD 0 == 13 then (headers', logicLine', rest)
        else headerLoop fuel headers' logicLine' rest

/-- Scalar fields of a `MIMENode` (everything except the child list and the
parent back-pointer; children are the tree structure below, and the parent
pointer is realised as ancestor context during classification, as spec §9
explicitly permits). -/
structure NodeSelf where
  headerStart : Nat
  headerLen : Nat
  bodyStart : Nat
  bodyLen : Nat
  header : List MimeLine
  contentType : List Byte
  encoding : List Byte
  charset : List Byte
  boundary : List Byte
  filename : String
  nameStr : String
  contentID : List Byte
  disposition : List Byte
  deriving DecidableEq, Repr

/-- Method `GetHeaderValue` (first header line whose uppercased name matches;
`none` models the Go error return). -/
def getHeaderValue (header : List MimeLine) (headerName : List Byte) :
    Option (List Byte) :=
  (header.find? (fun line => line.name == toUpperBytes headerName)).map (·.value)

/-- Method `GetHeaderValueIgnoreNotFound`. -/
def getHeaderValueIgnoreNotFound (header : List MimeLine) (headerName : List Byte) :
    List Byte :=
  (getHeaderValue header headerName).getD []

/-- `parseMimeSelf(emailPartData)`: header block scan plus extraction of the
`Content-*` derived fields.  `defaultCharset` is `p.DefaultCharset`. -/
def parseMimeSelf (ext : Externals) (defaultCharset emailPartData : List Byte) :
    NodeSelf :=
  let r := headerLoop (emailPartData.length + 2) [] [] emailPartData
  let header := if !r.2.1.isEmpty then emailParserAppendOneLine r.1 r.2.1 else r.1
  let rest := r.2.2
  let headerLen := emailPartData.length - rest.length
  let headerLen :=
    if headerLen > 0 && emailPartData.getD (headerLen - 1) 0 == 10 then headerLen - 1
    else headerLen
  let headerLen :=
    if headerLen > 0 && emailPartData.getD (headerLen - 1) 0 == 13 then headerLen - 1
    else headerLen
  let bodyStart := emailPartData.length - rest.length
  let bodyLen := rest.length
  let encoding :=
    match getHeaderValue header (bytesOf "CONTENT-TRANSFER-ENCODING") with
    | some v => toUpperBytes (trimSpaceBytes (ParseMimeValueParams v).value)
    | none => []
  let ctFields :=
    match getHeaderValue header (bytesOf "CONTENT-TYPE") with
    | some v =>
      let vp := ParseMimeValueParams v
      (toUpperBytes (trimSpaceBytes vp.value),
       toUpperBytes (vp.TrimmedParam (bytesOf "CHARSET")),
       vp.ParseParamStringValue ext (bytesOf "NAME") defaultCharset,
       vp.TrimmedParam (bytesOf "BOUNDARY"))
    | none => ([], [], "", [])
  let contentType :=
    if ctFields.1.isEmpty || ctFields.1 == bytesOf "TEXT" then bytesOf "TEXT/PLAIN"
    else ctFields.1
  let cdFields :=
    match getHeaderValue header (bytesOf "CONTENT-DISPOSITION") with
    | some v =>
      let vp := ParseMimeValueParams v
      (toUpperBytes (trimSpaceBytes vp.value),
       vp.ParseParamStringValue ext (bytesOf "FILENAME") defaultCharset)
    | none => ([], "")
  let contentID :=
    match getHeaderValue header (bytesOf "CONTENT-ID") with
    | some v => trimBytesGU v (bytesOf "\"<>\r\n\t ")
    | none => []
  { headerStart := 0, headerLen := headerLen, bodyStart := bodyStart, bodyLen := bodyLen,
    header := header, contentType := contentType, encoding := encoding,
    charset := ctFields.2.1, boundary := ctFields.2.2.2, filename := cdFields.2,
    nameStr := ctFields.2.2.1, contentID := contentID, disposition := cdFields.1 }

/-- The MIME part tree (struct `MIMENode` with its `Childs`). -/
inductive MIMETree where
  | node : NodeSelf → List MIMETree → MIMETree

/-- Scalar fields of the root of a tree. -/
def MIMETree.self : MIMETree → NodeSelf
  | .node s _ => s

/-- Children of the root of a tree (field `Childs`). -/
def MIMETree.childs : MIMETree → List MIMETree
  | .node _ cs => cs

/-- Offset rebasing of `parseMime` (Go lines 304-305). -/
def rebase (s : NodeSelf) (offset : Nat) : NodeSelf :=
  { s with headerStart := s.headerStart + offset, bodyStart := s.bodyStart + offset }

/-- Whether boundary entry `bo` matches the node's boundary string (Go line
321: equal to `boundary` or to `boundary ++ "--"`). -/
def boundaryMatches (nodeBoundary : List Byte) (bo : BoundaryPos) : Bool :=
  bo.boundary == nodeBoundary || bo.boundary == nodeBoundary ++ bytesOf "--"

/-- Indices of the boundary entries matching the node's boundary, in order.
The Go loop (lines 319-338) visits exactly these indices; its `lastId`/`i`
pairs are the consecutive pairs of this list. -/
def matchedIdx (bnds : List BoundaryPos) (nodeBoundary : List Byte) : List Nat :=
  (List.range bnds.length).filter (fun i => boundaryMatches nodeBoundary (bnds.getD i bpDefault))

/-- The boundary sublist handed to a pair child (Go lines 330-333):
`boundaries[lastId+1 : i-1]` guarded by `lastId+1 < i-1`, else nil. -/
def parseMimeChildBoundaries (bnds : List BoundaryPos) (lastId i : Nat) :
    List BoundaryPos :=
  if lastId + 1 < i - 1 then listSlice bnds (lastId + 1) (i - 1) else []

/-- Indexing `boundaries[i]` (always in range at the indices produced by
`matchedIdx`). -/
def bndAt (bnds : List BoundaryPos) (i : Nat) : BoundaryPos := bnds.getD i bpDefault

/-- The candidate trailing region after the last matched delimiter (Go lines
341-343): the suffix of the WHOLE email buffer from `so.End`, whitespace
trimmed. -/
def trailingRegion (emailData : List Byte) (soStop : Nat) : List Byte :=
  trimBytesGU (emailData.drop soStop) (bytesOf "\r\n\t ")

/-- Whether the trailing region is parsed as an extra child (Go lines 342-344):
the raw suffix is nonempty, and after trimming it exceeds 10 bytes and contains
a newline. -/
def trailingTaken (emailData : List Byte) (soStop : Nat) : Bool :=
  !(emailData.drop soStop).isEmpty &&
    ((trailingRegion emailData soStop).length > 10 &&
      bContains (trailingRegion emailData soStop) (bytesOf "\n"))

/-- `parseMime(offset, emailPartData, boundaries)`.  `none` models a Go
runtime panic: the child slice `p.EmailData[so.End : eo.Start-1]` (line 334)
requires `so.End ≤ eo.Start-1 ≤ len(EmailData)`, and `p.EmailData[so.End:]`
(line 341) requires `so.End ≤ len(EmailData)`; Go panics otherwise.  `fuel`
bounds the recursion depth; every recursive call passes a strictly shorter
boundary list (or the empty one), so the `boundaries.length + 2` passed by
`EmailParserNewTop` always suffices. -/
def parseMime (ext : Externals) (defaultCharset emailData : List Byte) :
    Nat → Nat → List Byte → List BoundaryPos → Option MIMETree
  | 0, _, _, _ => none
  | fuel + 1, offset, emailPartData, boundaries =>
    let s := rebase (parseMimeSelf ext defaultCharset emailPartData) offset
    if !bytesHasPre s.contentType (bytesOf "MULTIPART/") then some (.node s [])
    else if s.boundary.isEmpty then some (.node s [])
    else
      let ms := matchedIdx boundaries s.boundary
      match (ms.zip ms.tail).mapM (fun ab =>
          let so := bndAt boundaries ab.1
          let eo := bndAt boundaries ab.2
          if so.stop + 1 ≤ eo.start ∧ eo.start ≤ emailData.length + 1 then
            parseMime ext defaultCharset emailData fuel so.stop
              (listSlice emailData so.stop (eo.start - 1))
              (parseMimeChildBoundaries boundaries ab.1 ab.2)
          else none) with
      | none => none
      | some pairChilds =>
        match ms.getLast? with
        | none => some (.node s pairChilds)
        | some lastId =>
          let so := bndAt boundaries lastId
          if so.stop ≤ emailData.length then
            if trailingTaken emailData so.stop then
              match parseMime ext defaultCharset emailData fuel so.stop
                  (trailingRegion emailData so.stop) [] with
              | none => none
              | some c => some (.node s (pairChilds ++ [c]))
            else some (.node s pairChilds)
          else none

/-- `EmailParserNew(options)`, reduced to the tree it constructs: default the
charset to UTF-8, scan all boundaries, parse the whole buffer as the top node.
`none` models a Go runtime panic during parsing. -/
def EmailParserNewTop (ext : Externals) (defaultCharset emailData : List Byte) :
    Option MIMETree :=
  let dc := if defaultCharset.isEmpty then bytesOf "UTF-8" else defaultCharset
  let boundaries := scanAllBoundaries emailData
  parseMime ext dc emailData (boundaries.length + 2) 0 emailData boundaries

/-- Struct `MimeAddress`. -/
structure MimeAddress where
  nameRaw : List Byte
  name : String
  email : String
  deriving DecidableEq, Repr

/-- `parseMimeAddress_lineBufferSkipChar(bf, " \t")`: index of the first byte
that is not a space or tab, `none` for Go's `-1` (all bytes skipped). -/
def skipSpaceTabIdx : List Byte → Option Nat
  | [] => none
  | b :: rest =>
    if b == 32 || b == 9 then (skipSpaceTabIdx rest).map (· + 1) else some 0

/-- The quoted-string inner loop of `parseMimeAddress_decodeOne` (Go lines
76-97): returns the grown buffer and the bytes after the closing quote
(empty when input is exhausted, which is Go's `i == len(bf)`). -/
def addrQuotedLoop : List Byte → List Byte → List Byte × List Byte
  | tmp, [] => (tmp, [])
  | tmp, 92 :: rest =>
    match rest with
    | [] => (tmp, [])
    | c :: rest2 => addrQuotedLoop (tmp ++ [c]) rest2
  | tmp, 34 :: rest => (tmp, rest)
  | tmp, c :: rest => addrQuotedLoop (tmp ++ [c]) rest

/-- The angle-addr inner loop of `parseMimeAddress_decodeOne` (Go lines
121-153): state is (name so far, email buffer, remaining bytes); returns the
possibly-grown name, the collected address (`none` = Go nil) and the rest. -/
def addrAngleLoop : List Byte → List Byte → List Byte →
    List Byte × Option (List Byte) × List Byte
  | nm, _tmp, [] => (nm, none, [])
  | nm, tmp, 60 :: rest =>
    addrAngleLoop (nm ++ [60] ++ (tmp ++ [32])) [] rest
  | nm, tmp, 44 :: rest => (nm, some tmp, rest)
  | nm, tmp, 59 :: rest => (nm, some tmp, rest)
  | nm, tmp, 62 :: rest => (nm, some tmp, rest)
  | nm, tmp, c :: rest =>
    match rest with
    | [] => (nm, some (tmp ++ [c]), [])
    | _ => addrAngleLoop nm (tmp ++ [c]) rest

/-- The main loop of `parseMimeAddress_decodeOne` (Go lines 69-168): returns
(name, address, remaining bytes); `none` components model Go nil slices.  One
fuel unit per iteration; each iteration consumes at least one byte. -/
def addrMainLoop : Nat → List Byte → List Byte →
    Option (List Byte) × Option (List Byte) × List Byte
  | 0, _, rest => (none, none, rest)
  | _ + 1, _, [] => (none, none, [])
  | fuel + 1, tmp, 34 :: rest =>
    let q := addrQuotedLoop tmp rest
    if q.2.isEmpty then (some q.1, none, [])
    else addrMainLoop fuel q.1 q.2
  | _ + 1, tmp, 44 :: rest => (some tmp, none, rest)
  | _ + 1, tmp, 59 :: rest => (some tmp, none, rest)
  | _ + 1, tmp, 60 :: rest =>
    let a := addrAngleLoop tmp [] rest
    (some a.1, a.2.1, a.2.2)
  | fuel + 1, tmp, c :: rest =>
    match rest with
    | [] => (some (tmp ++ [c]), none, [])
    | _ => addrMainLoop fuel (tmp ++ [c]) rest

/-- `parseMimeAddress_decodeOne(line)`: `none` models the Go nil result (line
made only of spaces/tabs).  Returns (leftbf, nameBuffer, trimmed address). -/
def parseMimeAddress_decodeOne (line : List Byte) :
    Option (List Byte × List Byte × List Byte) :=
  match skipSpaceTabIdx line with
  | none => none
  | some pos =>
    let bf := line.drop pos
    let r := addrMainLoop (bf.length + 1) [] bf
    let nameOpt := r.1
    let addrOpt := r.2.1
    let leftbf := r.2.2
    let na :=
      match addrOpt, nameOpt with
      | none, some n =>
        if bContains n (bytesOf "@") then (none, some n) else (some n, none)
      | _, _ => (nameOpt, addrOpt)
    some (leftbf, na.1.getD [], trimSpaceBytes (na.2.getD []))

/-- The collection loop of `ParseMimeAddress` (Go lines 14-27), keeping the
raw (NameRaw, Email) pairs of entries that have a nonempty address or name. -/
def parseMimeAddressLoop : Nat → List Byte → List (List Byte × List Byte)
  | 0, _ => []
  | fuel + 1, bf =>
    if bf.isEmpty then []
    else
      match parseMimeAddress_decodeOne bf with
      | none => []
      | some (leftbf, nameBuf, addr) =>
        if !addr.isEmpty || !nameBuf.isEmpty then
          (nameBuf, addr) :: parseMimeAddressLoop fuel leftbf
        else parseMimeAddressLoop fuel leftbf

/-- Lowercase one ASCII byte (Go `strings.ToLower` on ASCII). -/
def toLowerByte (b : Byte) : Byte := if 65 ≤ b && b ≤ 90 then b + 32 else b

/-- Go `strings.ToLower` on ASCII data. -/
def toLowerBytes (l : List Byte) : List Byte := l.map toLowerByte

/-- Go `strings.Trim(s, cutset)` on an ASCII string rendered as bytes. -/
def goStringOf (l : List Byte) : String := String.mk (l.map Char.ofNat)

/-- Go `strings.Trim` over the characters of a decoded string. -/
def strTrimCutset (s : String) (cs : List Char) : String :=
  String.mk (((s.data.dropWhile cs.contains).reverse.dropWhile cs.contains).reverse)

/-- `ParseMimeAddress(line, defaultCharset)`. -/
def ParseMimeAddress (ext : Externals) (line defaultCharset : List Byte) :
    List MimeAddress :=
  (parseMimeAddressLoop (line.length + 1) line).map (fun p =>
    { nameRaw := p.1,
      name := strTrimCutset (ParseMimeValueString ext p.1 defaultCharset)
        [' ', '\r', '\n', '\t', '"', '\''],
      email := goStringOf (toLowerBytes (trimBytesGU p.2 (bytesOf " \r\n\t\"'"))) })

/-- `ParseMimeAddressFirstOne(line, defaultCharset)`. -/
def ParseMimeAddressFirstOne (ext : Externals) (line defaultCharset : List Byte) :
    MimeAddress :=
  match ParseMimeAddress ext line defaultCharset with
  | a :: _ => a
  | [] => { nameRaw := [], name := "", email := "" }

/-- Go `strings.LastIndex(s, ";")` specialised to one byte. -/
def bLastIndexByte (l : List Byte) (c : Byte) : Option Nat :=
  match bIndexByte l.reverse c with
  | some i => some (l.length - 1 - i)
  | none => none

/-- Delimiter set of `GetReferences` (Go lines 500-502). -/
def refDelim (b : Byte) : Bool :=
  b == 44 || b == 59 || b == 60 || b == 62 || b == 9 || b == 32 || b == 10 || b == 13

/-- Go `strings.FieldsFunc` over the `GetReferences` delimiters.  Fuel: each
iteration consumes at least one byte. -/
def fieldsFuncRef : Nat → List Byte → List (List Byte)
  | 0, _ => []
  | fuel + 1, l =>
    let l2 := l.dropWhile refDelim
    if l2.isEmpty then []
    else (l2.takeWhile (fun b => !refDelim b)) ::
      fieldsFuncRef fuel (l2.dropWhile (fun b => !refDelim b))

/-- Struct `EmailParser`: the message facade with its per-field caches and
`...Dealed` flags (spec §3 "Message view M").  The classification caches
(`textNodes` &c.) are pure functions of the tree below. -/
structure EPState where
  defaultCharset : List Byte
  emailData : List Byte
  topNode : MIMETree
  messageID : List Byte
  messageIDDealed : Bool
  subject : String
  subjectDealed : Bool
  date : List Byte
  dateUnix : Int
  dateDealed : Bool
  fromA : MimeAddress
  fromDealed : Bool
  toA : List MimeAddress
  toDealed : Bool
  ccA : List MimeAddress
  ccDealed : Bool
  bccA : List MimeAddress
  bccDealed : Bool
  sender : MimeAddress
  senderDealed : Bool
  replyTo : MimeAddress
  replyToDealed : Bool
  dispositionNotificationTo : MimeAddress
  dispositionNotificationToDealed : Bool
  references : List (List Byte)
  referencesDealed : Bool

/-- Zero `MimeAddress`. -/
def maZero : MimeAddress := { nameRaw := [], name := "", email := "" }

/-- `EmailParserNew(options)` as a facade state (`none` models the Go panic
during `parseMime`, see `EmailParserNewTop`); all caches start at their Go
zero values with all `Dealed` flags false. -/
def EmailParserNewState (ext : Externals) (defaultCharset emailData : List Byte) :
    Option EPState :=
  (EmailParserNewTop ext defaultCharset emailData).map (fun t =>
    { defaultCharset := if defaultCharset.isEmpty then bytesOf "UTF-8" else defaultCharset
      emailData := emailData, topNode := t
      messageID := [], messageIDDealed := false
      subject := "", subjectDealed := false
      date := [], dateUnix := 0, dateDealed := false
      fromA := maZero, fromDealed := false
      toA := [], toDealed := false
      ccA := [], ccDealed := false
      bccA := [], bccDealed := false
      sender := maZero, senderDealed := false
      replyTo := maZero, replyToDealed := false
      dispositionNotificationTo := maZero, dispositionNotificationToDealed := false
      references := [], referencesDealed := false })

/-- Header bytes of the top node (the Go getters all read
`p.topNode.GetHeaderValueIgnoreNotFound(...)`). -/
def EPState.topHeaderValue (p : EPState) (headerName : String) : List Byte :=
  getHeaderValueIgnoreNotFound p.topNode.self.header (bytesOf headerName)

/-- `GetMessageID()`.  Note: the Go body tests `messageIDDealed` but never
sets it; the model reproduces that faithfully. -/
def GetMessageID (p : EPState) : List Byte × EPState :=
  if p.messageIDDealed then (p.messageID, p)
  else
    let v := trimBytesGU (p.topHeaderValue "MESSAGE-ID") (bytesOf "\"<>\r\n\t ")
    (v, { p with messageID := v })

/-- `GetSubject()`. -/
def GetSubject (ext : Externals) (p : EPState) : String × EPState :=
  if p.subjectDealed then (p.subject, p)
  else
    let v := ParseMimeValueString ext (p.topHeaderValue "SUBJECT") p.defaultCharset
    (v, { p with subjectDealed := true, subject := v })

/-- `parseDate()` (Go lines 354-374). -/
def parseDate (ext : Externals) (p : EPState) : EPState :=
  let p :=
    match getHeaderValue p.topNode.self.header (bytesOf "DATE") with
    | some date => { p with date := trimSpaceBytes date }
    | none =>
      match getHeaderValue p.topNode.self.header (bytesOf "RECEIVED") with
      | some received =>
        match bLastIndexByte received 59 with
        | some pos =>
          if pos > 0 then { p with date := trimSpaceBytes (received.drop (pos + 1)) }
          else p
        | none => p
      | none => p
  if !p.date.isEmpty then
    match ext.parseDateUnix p.date with
    | some u => { p with dateUnix := u }
    | none => p
  else p

/-- `GetDate()`. -/
def GetDate (ext : Externals) (p : EPState) : List Byte × EPState :=
  if p.dateDealed then (p.date, p)
  else
    let p := parseDate ext { p with dateDealed := true }
    (p.date, p)

/-- `GetDateUnix()`. -/
def GetDateUnix (ext : Externals) (p : EPState) : Int × EPState :=
  if p.dateDealed then (p.dateUnix, p)
  else
    let p := parseDate ext { p with dateDealed := true }
    (p.dateUnix, p)

/-- `GetFrom()`. -/
def GetFrom (ext : Externals) (p : EPState) : MimeAddress × EPState :=
  if p.fromDealed then (p.fromA, p)
  else
    let v := ParseMimeAddressFirstOne ext (p.topHeaderValue "FROM") p.defaultCharset
    (v, { p with fromDealed := true, fromA := v })

/-- `GetTo()`. -/
def GetTo (ext : Externals) (p : EPState) : List MimeAddress × EPState :=
  if p.toDealed then (p.toA, p)
  else
    let v := ParseMimeAddress ext (p.topHeaderValue "TO") p.defaultCharset
    (v, { p with toDealed := true, toA := v })

/-- `GetCc()`. -/
def GetCc (ext : Externals) (p : EPState) : List MimeAddress × EPState :=
  if p.ccDealed then (p.ccA, p)
  else
    let v := ParseMimeAddress ext (p.topHeaderValue "CC") p.defaultCharset
    (v, { p with ccDealed := true, ccA := v })

/-- `GetBcc()`. -/
def GetBcc (ext : Externals) (p : EPState) : List MimeAddress × EPState :=
  if p.bccDealed then (p.bccA, p)
  else
    let v := ParseMimeAddress ext (p.topHeaderValue "BCC") p.defaultCharset
    (v, { p with bccDealed := true, bccA := v })

/-- `GetSender()`. -/
def GetSender (ext : Externals) (p : EPState) : MimeAddress × EPState :=
  if p.senderDealed then (p.sender, p)
  else
    let v := ParseMimeAddressFirstOne ext (p.topHeaderValue "SENDER") p.defaultCharset
    (v, { p with senderDealed := true, sender := v })

/-- `GetReplyTo()`. -/
def GetReplyTo (ext : Externals) (p : EPState) : MimeAddress × EPState :=
  if p.replyToDealed then (p.replyTo, p)
  else
    let v := ParseMimeAddressFirstOne ext (p.topHeaderValue "REPLY-TO") p.defaultCharset
    (v, { p with replyToDealed := true, replyTo := v })

/-- `GetDispositionNotificationTo()`. -/
def GetDispositionNotificationTo (ext : Externals) (p : EPState) :
    MimeAddress × EPState :=
  if p.dispositionNotificationToDealed then (p.dispositionNotificationTo, p)
  else
    let v := ParseMimeAddressFirstOne ext (p.topHeaderValue "DISPOSITION-NOTIFICATION-TO")
      p.defaultCharset
    (v, { p with dispositionNotificationToDealed := true, dispositionNotificationTo := v })

/-- `GetReferences()` (the per-field trim-and-keep-nonempty loop is folded into
`fieldsFuncRef`; a field produced by `FieldsFunc` may still trim to empty only
for the ASCII bytes `\v`/`\f`, which `TrimSpace` removes but the delimiter set
does not, so the Go `if ref == "" continue` filter is applied after trimming). -/
def GetReferences (p : EPState) : List (List Byte) × EPState :=
  if p.referencesDealed then (p.references, p)
  else
    let hv := p.topHeaderValue "REFERENCES"
    let fields :=
      ((fieldsFuncRef (hv.length + 1) hv).map trimSpaceBytes).filter (fun r => !r.isEmpty)
    (fields, { p with referencesDealed := true, references := fields })

/-- `mainType` extraction of `classifyNodes` (Go lines 521-527): the part
before the first `/` when that `/` is at a positive index, else the whole
content type. -/
def mainTypeOf (ct : List Byte) : List Byte :=
  match bIndex ct (bytesOf "/") with
  | some idx => if idx > 0 then ct.take idx else ct
  | none => ct

/-- Entry of the classified node vectors: the node's scalar fields plus its
ancestor chain (nearest first).  The chain realises the Go `Parent`
back-pointer for the `MULTIPART/ALTERNATIVE` search, as spec §9 permits. -/
abbrev ClassifiedNode := NodeSelf × List NodeSelf

mutual
/-- `walkAllNode` of `classifyNodes` (Go lines 519-559): returns the text
nodes and the attachment nodes of the subtree, in visit order. -/
def walkAllNode (anc : List NodeSelf) : MIMETree →
    List ClassifiedNode × List ClassifiedNode
  | .node s cs =>
    let mt := mainTypeOf s.contentType
    if mt == bytesOf "MULTIPART" then walkChildren (s :: anc) cs
    else if mt == bytesOf "APPLICATION" then ([], [(s, anc)])
    else if mt == bytesOf "MESSAGE" then
      if bContains s.contentType (bytesOf "DELIVERY") ||
          bContains s.contentType (bytesOf "NOTIFICATION") then ([(s, anc)], [])
      else ([], [(s, anc)])
    else if mt == bytesOf "TEXT" then
      if bContains s.contentType (bytesOf "/PLAIN") ||
          bContains s.contentType (bytesOf "/HTML") then ([(s, anc)], [])
      else ([], [(s, anc)])
    else ([], [(s, anc)])

/-- Children traversal of `walkAllNode`, in order. -/
def walkChildren (anc : List NodeSelf) : List MIMETree →
    List ClassifiedNode × List ClassifiedNode
  | [] => ([], [])
  | c :: cs =>
    let r := walkAllNode anc c
    let r2 := walkChildren anc cs
    (r.1 ++ r2.1, r.2 ++ r2.2)
end

/-- `classifyNodes`: the `(textNodes, attachmentNodes)` pair of the message. -/
def classifyNodes (top : MIMETree) : List ClassifiedNode × List ClassifiedNode :=
  walkAllNode [] top

/-- The `isTnef` bit of a node once `classifyNodes` has run: the walk marks
exactly the nodes of main type APPLICATION whose content type contains "TNEF"
(Go lines 535-539), and it visits every node of the tree, since children only
exist under MULTIPART nodes, into which it always recurses. -/
def isTnefAfterClassify (s : NodeSelf) : Bool :=
  mainTypeOf s.contentType == bytesOf "APPLICATION" &&
    bContains s.contentType (bytesOf "TNEF")

/-- Method `IsTnef(headerName)` (Go lines 188-191): run the classification of
the whole message, then return the receiver's `isTnef` bit.  The `headerName`
parameter is accepted, as in the Go signature, and not used, as in the Go
body. -/
def MIMENode_IsTnef (s : NodeSelf) (headerName : List Byte) : Bool :=
  isTnefAfterClassify s

/-- `subType` extraction of `classifyAlternativeShowNodes` (Go lines 580-584,
`strings.SplitN(nodeType, "/", 2)`): the part after the first `/`, empty when
there is none. -/
def subTypeOf (ct : List Byte) : List Byte :=
  match bIndex ct (bytesOf "/") with
  | some idx => ct.drop (idx + 1)
  | none => []

/-- The per-key record `alternativeSet` of `classifyAlternativeShowNodes`. -/
structure AlternativeSet where
  html : Option NodeSelf
  plain : Option NodeSelf

/-- The ancestor search of `classifyAlternativeShowNodes` (Go lines 590-597):
the nearest ancestor whose content type is exactly `MULTIPART/ALTERNATIVE`. -/
def nearestAlternativeAncestor (anc : List NodeSelf) : Option NodeSelf :=
  anc.find? (fun a => a.contentType == bytesOf "MULTIPART/ALTERNATIVE")

/-- Keyed update of the `tmpShowSet` map.  The Go key is the string
`"^_^" ++ itoa(parent.HeaderStart)`, injective in `HeaderStart`, so the model
keys directly by the ancestor's `headerStart`; the map is an insertion-ordered
association list (Go map iteration order is unspecified — every scenario
settled below has at most one key, where the orders coincide). -/
def assocUpdate (sets : List (Nat × AlternativeSet)) (k : Nat)
    (f : AlternativeSet → AlternativeSet) : List (Nat × AlternativeSet) :=
  match sets with
  | [] => [(k, f ⟨none, none⟩)]
  | (k', s) :: rest => if k' = k then (k', f s) :: rest else (k', s) :: assocUpdate rest k f

/-- One step of the first loop of `classifyAlternativeShowNodes` (Go lines
579-610): pass non-HTML/PLAIN and alternative-less text nodes straight
through, group the others by their alternative ancestor. -/
def classifyAltStep (acc : List NodeSelf × List (Nat × AlternativeSet))
    (cn : ClassifiedNode) : List NodeSelf × List (Nat × AlternativeSet) :=
  let st := subTypeOf cn.1.contentType
  if st != bytesOf "HTML" && st != bytesOf "PLAIN" then (acc.1 ++ [cn.1], acc.2)
  else
    match nearestAlternativeAncestor cn.2 with
    | none => (acc.1 ++ [cn.1], acc.2)
    | some par =>
      if st == bytesOf "HTML" then
        (acc.1, assocUpdate acc.2 par.headerStart (fun s => { s with html := some cn.1 }))
      else
        (acc.1, assocUpdate acc.2 par.headerStart (fun s => { s with plain := some cn.1 }))

/-- The winners loop of `classifyAlternativeShowNodes` (Go lines 611-620):
per group prefer the HTML node, else the PLAIN one. -/
def altWinners : List (Nat × AlternativeSet) → List NodeSelf
  | [] => []
  | (_, s) :: rest =>
    match s.html with
    | some h => h :: altWinners rest
    | none =>
      match s.plain with
      | some pl => pl :: altWinners rest
      | none => altWinners rest

/-- Insertion step of the final `sort.Slice(..., HeaderStart <)`. -/
def insertByHS (x : NodeSelf) : List NodeSelf → List NodeSelf
  | [] => [x]
  | y :: rest =>
    if x.headerStart < y.headerStart then x :: y :: rest else y :: insertByHS x rest

/-- The final sort of `classifyAlternativeShowNodes` (Go lines 622-624).
Go's `sort.Slice` is unstable; on the lists settled below all `headerStart`
keys are distinct, where every sort agrees. -/
def sortByHeaderStart (l : List NodeSelf) : List NodeSelf := l.foldr insertByHS []

/-- `classifyAlternativeShowNodes` / `GetAlternativeShowNodes`, as the pure
function of the tree it computes. -/
def GetAlternativeShowNodes (top : MIMETree) : List NodeSelf :=
  let r := (classifyNodes top).1.foldl classifyAltStep ([], [])
  sortByHeaderStart (r.1 ++ altWinners r.2)

/-- Interval start of a node, `HeaderStart`, as in spec invariant 3. -/
def iLo (t : MIMETree) : Nat := t.self.headerStart

/-- Interval end of a node, `BodyStart + BodyLen`, as in spec invariant 3. -/
def iHi (t : MIMETree) : Nat := t.self.bodyStart + t.self.bodyLen

/-- Every node of the tree has its children's byte intervals pairwise disjoint
in order: each child ends at or before the next one starts. -/
inductive TreeOk : MIMETree → Prop where
  | mk (s : NodeSelf) (cs : List MIMETree) :
      List.Pairwise (fun a b => iHi a ≤ iLo b) cs →
      (∀ c ∈ cs, TreeOk c) → TreeOk (.node s cs)

/-- Well-ordering of a boundary list as produced by `scanAllBoundaries`:
entries appear in buffer order with each `stop` at or before the next `start`,
and each entry spans `start < stop`. -/
def BndsOrdered (l : List BoundaryPos) : Prop :=
  l.Pairwise (fun a b => a.stop ≤ b.start) ∧ ∀ b ∈ l, b.start < b.stop

/-- The pair-child computation of `parseMime` (Go lines 328-336), named for
the proofs below; `parseMime`'s `mapM` lambda is definitionally this applied
to the pair. -/
def pairChild (ext : Externals) (dc emailData : List Byte) (fuel : Nat)
    (bnds : List BoundaryPos) (a b : Nat) : Option MIMETree :=
  let so := bndAt bnds a
  let eo := bndAt bnds b
  if so.stop + 1 ≤ eo.start ∧ eo.start ≤ emailData.length + 1 then
    parseMime ext dc emailData fuel so.stop
      (listSlice emailData so.stop (eo.start - 1))
      (parseMimeChildBoundaries bnds a b)
  else none

/-- First-some choice on options (`Option.orElse` without the thunk). -/
def optOr {α} (a b : Option α) : Option α :=
  match a with
  | some v => some v
  | none => b

/-- Claim-side companion of `parseParamsLoop` for C9: the same loop, but
collecting every parsed `(uppercased name, value)` occurrence in textual
order, duplicates included, instead of inserting into the map. -/
def paramOccurrences : Nat → List Byte → List (List Byte × List Byte)
  | 0, _ => []
  | _ + 1, [] => []
  | fuel + 1, current =>
    let nameEnd := paramNameEnd current
    let name := trimSpaceBytes (current.take nameEnd)
    if name.isEmpty then
      paramOccurrences fuel (skipToNextParam (current.drop nameEnd))
    else
      let cur1 := trimLeftBy isGoSpace (current.drop nameEnd)
      if cur1.isEmpty || cur1.headD 0 != 61 then
        paramOccurrences fuel (skipToNextParam cur1)
      else
        let cur2 := trimLeftBy isGoSpace (cur1.drop 1)
        let vv :=
          if !cur2.isEmpty && cur2.headD 0 == 34 then parseQuotedParamValue cur2
          else parseUnquotedParamValue cur2
        (toUpperBytes name, vv.1) ::
          paramOccurrences fuel (skipToNextParam (cur2.drop vv.2))

/-- The parameter occurrences of a whole header value: the same preprocessing
as `ParseMimeValueParams`, then `paramOccurrences` on the parameter region. -/
def paramOccurrencesOf (data : List Byte) : List (List Byte × List Byte) :=
  let content := trimLeftBytesGU data (bytesOf " \t")
  if content.isEmpty then []
  else
    let r := parseMimeValue content
    if r.2 < content.length then
      let paramsContent :=
        trimLeftBy (fun b => b == 59 || isGoSpace b) (content.drop r.2)
      paramOccurrences (paramsContent.length + 1) paramsContent
    else []

/-- Stated from the spec's words for claim C5: the subset of the boundary
list strictly between the two matches, "the entries at indices
`prev+1` through `next-1`" inclusive. -/
def boundariesStrictlyBetween (bnds : List BoundaryPos) (prev next : Nat) :
    List BoundaryPos :=
  listSlice bnds (prev + 1) next

/-- Stated from the spec's words for claim C7: value = "the byte slice after
the first `:` with only leading whitespace removed". -/
def appendOneLineLeftTrimOnly (lines : List MimeLine) (lineData : List Byte) :
    List MimeLine :=
  match bIndex lineData (bytesOf ":") with
  | none => lines
  | some pos =>
    lines ++ [⟨toUpperBytes (trimSpaceBytes (lineData.take pos)),
               trimLeftBy isGoSpace (lineData.drop (pos + 1))⟩]

/-- Concrete stand-in for the external collaborators, used when claims are
evaluated at concrete inputs; none of those evaluations reach the externals'
interesting behaviour (no Q-encoded words, no non-ASCII charsets, no dates). -/
def ext0 : Externals :=
  { convertToUTF8 := fun data _ _ => String.mk (data.map Char.ofNat)
    qpDecodeHeader := fun d => d
    qpDecodeBody := fun d => d
    parseDateUnix := fun _ => none }

/-- All-zero node (used only as the default of `Option.getD` extractions). -/
def nsEmpty : NodeSelf :=
  { headerStart := 0, headerLen := 0, bodyStart := 0, bodyLen := 0, header := [],
    contentType := [], encoding := [], charset := [], boundary := [],
    filename := "", nameStr := "", contentID := [], disposition := [] }

/-- Default tree for `Option.getD` extractions. -/
def mtDefault : MIMETree := .node nsEmpty []

/-- C1's failing input: a multipart message whose two `--b` delimiter lines
are adjacent, so the second matched boundary has `Start` equal to the first
one's `End`. -/
def c1email : List Byte :=
  bytesOf "Content-Type: multipart/mixed; boundary=b\n\n--b\n--b\n"

/-- C2's counterexample input: a `--b` line inside the header block (a header
line may start with `--`), plus one `--b` delimiter in the body. -/
def c2email : List Byte :=
  bytesOf "Content-Type: multipart/mixed; boundary=b\n--b\nX\n\n--b\n"

/-- C3's input: two B-encoded words separated by one space. -/
def c3spaced : List Byte := bytesOf "=?UTF-8?B?AB?= =?UTF-8?B?CD?="

/-- C4's concrete message. -/
def c4email : List Byte := bytesOf "Message-ID: <x@y>\nSubject: hi\n\nbody\n"

/-- C5's concrete scanned boundary list (two `b` delimiters nested between
two `a` delimiters): the matches for boundary `a` are at indices 0 and 3. -/
def c5bnds : List BoundaryPos :=
  [⟨bytesOf "a", 43, 47⟩, ⟨bytesOf "b", 90, 94⟩, ⟨bytesOf "b", 96, 100⟩,
   ⟨bytesOf "a", 102, 106⟩]

/-- C6's counterexample input: outer multipart `a` containing a nested
multipart `b`; after the inner part's last `--b` delimiter, the inner node's
own slice holds only `X\n--b\nY` (7 bytes trimmed), while the whole buffer
continues with the closing `--a` and further text. -/
def c6email : List Byte :=
  bytesOf ("Content-Type: multipart/mixed; boundary=a\n\n--a\n" ++
    "Content-Type: multipart/mixed; boundary=b\n\n--b\nX\n--b\nY\n--a\n" ++
    "0123456789012345\n6789\n")

/-- C6's witness input for the amended claim: one matched delimiter followed
by a trailing region that survives the `> 10 bytes and contains a newline`
test. -/
def c6wEmail : List Byte :=
  bytesOf "Content-Type: multipart/mixed; boundary=b\n\n--b\n0123456789\nX\n"

/-- Scanned boundaries of `c6wEmail`. -/
def c6wBnds : List BoundaryPos := scanAllBoundaries c6wEmail

/-- C7's logical header line: trailing space after the value. -/
def c7line : List Byte := bytesOf "X: a "

/-- A `MULTIPART/ALTERNATIVE` root node for C8's witness. -/
def nsAlt : NodeSelf := { nsEmpty with contentType := bytesOf "MULTIPART/ALTERNATIVE" }

/-- A `TEXT/PLAIN` leaf for C8's witness. -/
def nsPlain : NodeSelf :=
  { nsEmpty with contentType := bytesOf "TEXT/PLAIN", headerStart := 10 }

/-- A `TEXT/HTML` leaf for C8's witness. -/
def nsHtml : NodeSelf :=
  { nsEmpty with contentType := bytesOf "TEXT/HTML", headerStart := 20 }

/-- C9's concrete header value with a duplicated (case-insensitive) name. -/
def c9value : List Byte := bytesOf "text/plain; charset=gbk; CHARSET=utf-8"

/-- The tree parsed from `c6wEmail` (for C6's amended-claim witness). -/
def c6wTree : MIMETree :=
  (parseMime ext0 (bytesOf "UTF-8") c6wEmail 3 0 c6wEmail c6wBnds).getD mtDefault

/-!
Theorems.  Each claim `Cn` of the specification audit has exactly one main
theorem named `Cn_...`; counterexamples and witnesses are named alongside.
Helper lemmas come first.
-/

/-- Helper: `emailParserAppendOneLine` splits at the first `:`; this links the
`bIndex` search of the source to the `takeWhile`/`dropWhile` description of
the split. -/
theorem colon_split (d : List Byte) (h : d.contains 58 = true) :
    ∃ i, bIndex d (bytesOf ":") = some i ∧
      d.take i = d.takeWhile (· != 58) ∧
      d.drop (i + 1) = (d.dropWhile (· != 58)).drop 1 := by
  induction d with
  | nil => simp at h
  | cons b rest ih =>
    by_cases hb : b = 58
    · subst hb
      refine ⟨0, ?_, rfl, rfl⟩
      rw [show bytesOf ":" = [58] from by decide]
      simp [bIndex, bytesHasPre]
    · have hb' : (b == 58) = false := by simp [hb]
      have hrest : rest.contains 58 = true := by
        have h2 := h
        simp [List.contains_cons] at h2 ⊢
        rcases h2 with h3 | h3
        · exact absurd h3.symm hb
        · exact h3
      obtain ⟨i, hi, ht, hd⟩ := ih hrest
      refine ⟨i + 1, ?_, ?_, ?_⟩
      · show (if bytesHasPre (b :: rest) (bytesOf ":") then some 0
              else (bIndex rest (bytesOf ":")).map (· + 1)) = some (i + 1)
        rw [show bytesHasPre (b :: rest) (bytesOf ":") =
              ((b == 58) && bytesHasPre rest []) from rfl]
        simp [hb', hi]
      · simp [List.takeWhile_cons, hb', hb, ht]
      · simp [List.dropWhile_cons, hb', hb, hd]

/-- C1: the spec promises structurally infallible parsing — "every input
(including binary garbage) produces a message with at least a root node", and
the claim asserts `parseMime` never slices out of range even when two
consecutive matching delimiters are adjacent.  On `c1email` the scanner emits
two adjacent matching entries (`stop` of the first equals `start` of the
second, 47), and `parseMime` then evaluates `p.EmailData[47:46]`, which
panics in Go; the model's `none` records exactly that out-of-range slice. -/
theorem C1_adjacent_boundaries_panic :
    scanAllBoundaries c1email = [⟨bytesOf "b", 43, 47⟩, ⟨bytesOf "b", 47, 51⟩] ∧
    EmailParserNewTop ext0 [] c1email = none :=
  ⟨rfl, rfl⟩

/-- C3 counterexample: on `=?UTF-8?B?AB?= =?UTF-8?B?CD?=` the tokeniser does
NOT merge the two words into one base64 block: the intervening space is pushed
as a raw charset-less segment between them, so the result is three segments
(the base64 decodes of "AB" and of "CD" — both empty, since Go's strict
decoder rejects a 2-byte quantum — around the raw space), not the single
segment the claim asserts. -/
theorem C3_counterexample :
    ParseMimeValueTokenNodes ext0 c3spaced =
      [⟨[], bytesOf "UTF-8"⟩, ⟨bytesOf " ", []⟩, ⟨[], bytesOf "UTF-8"⟩] ∧
    ParseMimeValueTokenNodes ext0 c3spaced ≠
      [⟨base64StdDecode (bytesOf "ABCD"), bytesOf "UTF-8"⟩] :=
  ⟨rfl, by decide⟩

/-- C3 amended: only DIRECTLY adjacent same-charset same-encoding encoded
words merge before decoding (the payloads "AB" and "CD" concatenate and
decode as the single block "ABCD"); with a space between the words, the space
becomes a raw segment separating them and each payload decodes
independently. -/
theorem C3_amended_adjacent_words_merge :
    ParseMimeValueTokenNodes ext0 (bytesOf "=?UTF-8?B?AB?==?UTF-8?B?CD?=") =
      [⟨base64StdDecode (bytesOf "ABCD"), bytesOf "UTF-8"⟩] ∧
    base64StdDecode (bytesOf "ABCD") = [0, 16, 131] ∧
    ParseMimeValueTokenNodes ext0 c3spaced =
      [⟨decodeHeaderBase64 (bytesOf "AB"), bytesOf "UTF-8"⟩, ⟨bytesOf " ", []⟩,
       ⟨decodeHeaderBase64 (bytesOf "CD"), bytesOf "UTF-8"⟩] :=
  ⟨rfl, rfl, rfl⟩

/-- C4: `GetMessageID` checks `messageIDDealed` but never sets it, so the
flag after a call is whatever it was before — the first invocation does NOT
set the dealed flag, and every invocation re-derives the value.  The second
conjunct evaluates the code on a concrete message: after the first
`GetMessageID` call the flag is still false, while `GetSubject` does set its
flag. -/
theorem C4_messageID_flag_never_set :
    (∀ p : EPState, (GetMessageID p).2.messageIDDealed = p.messageIDDealed) ∧
    (EmailParserNewState ext0 [] c4email).map (fun p0 =>
      ((GetMessageID p0).2.messageIDDealed, (GetSubject ext0 p0).2.subjectDealed,
        (GetMessageID p0).1)) = some (false, true, bytesOf "x@y") := by
  constructor
  · intro p
    unfold GetMessageID
    split <;> rfl
  · rfl

/-- C5 counterexample: with matches at indices 0 and 3, the code hands the
child `boundaries[1:2]` — only the entry at index 1 — while the claim says
the child receives the entries at indices 1 through 2. -/
theorem C5_counterexample :
    parseMimeChildBoundaries c5bnds 0 3 = [⟨bytesOf "b", 90, 94⟩] ∧
    boundariesStrictlyBetween c5bnds 0 3 =
      [⟨bytesOf "b", 90, 94⟩, ⟨bytesOf "b", 96, 100⟩] ∧
    parseMimeChildBoundaries c5bnds 0 3 ≠ boundariesStrictlyBetween c5bnds 0 3 :=
  ⟨rfl, rfl, by decide⟩

/-- C5 amended: the recursive child parse receives the entries at indices
`prev+1` through `next-2` — Go's `boundaries[lastId+1 : i-1]`, which excludes
the entry immediately preceding the next match (`listSlice bnds lo hi` is the
entries at indices `lo .. hi-1`). -/
theorem C5_amended_excludes_entry_before_match (bnds : List BoundaryPos)
    (prev next : Nat) :
    parseMimeChildBoundaries bnds prev next = listSlice bnds (prev + 1) (next - 1) := by
  unfold parseMimeChildBoundaries
  split
  · rfl
  · unfold listSlice
    have h : next - 1 - (prev + 1) = 0 := by omega
    rw [h]
    rfl

/-- C7 counterexample: for the logical line `"X: a "` the code stores the
value `"a"` — `bytes.TrimSpace` strips the trailing space — while the claim
("only leading whitespace removed, trailing bytes preserved") would store
`"a "`. -/
theorem C7_counterexample :
    emailParserAppendOneLine [] c7line = [⟨bytesOf "X", bytesOf "a"⟩] ∧
    appendOneLineLeftTrimOnly [] c7line = [⟨bytesOf "X", bytesOf "a "⟩] ∧
    emailParserAppendOneLine [] c7line ≠ appendOneLineLeftTrimOnly [] c7line :=
  ⟨rfl, rfl, by decide⟩

/-- C7 amended: for every logical header line containing a `:`, the stored
entry has the name equal to the bytes before the FIRST `:` whitespace-trimmed
and uppercased, and the value equal to the bytes after that `:` with BOTH
leading and trailing whitespace removed. -/
theorem C7_amended_value_trimmed_both_sides (lines : List MimeLine)
    (d : List Byte) (h : d.contains 58 = true) :
    emailParserAppendOneLine lines d =
      lines ++ [⟨toUpperBytes (trimSpaceBytes (d.takeWhile (· != 58))),
                 trimSpaceBytes ((d.dropWhile (· != 58)).drop 1)⟩] := by
  obtain ⟨i, hi, ht, hd⟩ := colon_split d h
  unfold emailParserAppendOneLine
  rw [hi, ← ht, ← hd]

/-- Witness for C7's amended theorem at the concrete line `"X: a "`. -/
theorem C7_amended_witness :
    c7line.contains 58 = true ∧
    emailParserAppendOneLine [] c7line =
      [] ++ [⟨toUpperBytes (trimSpaceBytes (c7line.takeWhile (· != 58))),
              trimSpaceBytes ((c7line.dropWhile (· != 58)).drop 1)⟩] :=
  ⟨by decide, C7_amended_value_trimmed_both_sides [] c7line (by decide)⟩

/-- C10: the public `IsTnef` method ignores its `headerName` argument; the
result depends only on the node's classification. -/
theorem C10_IsTnef_ignores_headerName (s : NodeSelf) (h1 h2 : List Byte) :
    MIMENode_IsTnef s h1 = MIMENode_IsTnef s h2 := rfl

/-- C2 counterexample: parsing `c2email` yields a root whose body interval is
`[49, 53)` while its single child's interval `[HeaderStart, BodyStart+BodyLen)`
is `[46, 48)` — the child begins inside the parent's HEADER block (the `--b`
header line was scanned as a matching delimiter), so it does not lie within
the parent's body interval as the claim asserts. -/
theorem C2_counterexample :
    (EmailParserNewTop ext0 [] c2email).map (fun t =>
      (t.self.bodyStart, t.self.bodyStart + t.self.bodyLen,
       t.childs.map (fun c => (iLo c, iHi c)))) = some (49, 53, [(46, 48)]) ∧
    46 < 49 :=
  ⟨rfl, by omega⟩

set_option maxRecDepth 4000 in
/-- C6 counterexample: in `c6email` the inner multipart node spans `[47, 101)`
and its boundary list (handed down by the outer parse) matches once, at the
`--b` entry ending at offset 94.  The inner node's OWN slice after that
delimiter is `c6email[94:101] = "X\n--b\nY"`, 7 bytes after trimming — at most
10, so under the claim no extra child may be appended (and with a single match
there are no pair children either).  The code nevertheless appends one child,
parsed from the whole-buffer suffix, spanning `[94, 127)` — beyond the inner
node's own end 101. -/
theorem C6_counterexample :
    (EmailParserNewTop ext0 [] c6email).map (fun t =>
      t.childs.map (fun c => (iLo c, iHi c, c.childs.map (fun d => (iLo d, iHi d))))) =
      some [(47, 101, [(94, 127)]), (106, 127, [])] ∧
    (trimBytesGU (listSlice c6email 94 101) (bytesOf "\r\n\t ")).length = 7 ∧
    matchedIdx (parseMimeChildBoundaries (scanAllBoundaries c6email) 0 3) (bytesOf "b") = [0] :=
  ⟨rfl, rfl, rfl⟩

/-- C8: for a tree whose root is `MULTIPART/ALTERNATIVE` with exactly one
`TEXT/PLAIN` child and one `TEXT/HTML` child (in either order), the
alternative-show selection returns exactly one node: the HTML child. -/
theorem C8_alternative_prefers_html (r pl h : NodeSelf)
    (hr : r.contentType = bytesOf "MULTIPART/ALTERNATIVE")
    (hp : pl.contentType = bytesOf "TEXT/PLAIN")
    (hh : h.contentType = bytesOf "TEXT/HTML") :
    GetAlternativeShowNodes (.node r [.node pl [], .node h []]) = [h] ∧
    GetAlternativeShowNodes (.node r [.node h [], .node pl []]) = [h] := by
  constructor <;>
  · simp only [GetAlternativeShowNodes, classifyNodes, walkAllNode, walkChildren, hr, hp, hh,
      show (mainTypeOf (bytesOf "MULTIPART/ALTERNATIVE") == bytesOf "MULTIPART") = true from rfl,
      show (mainTypeOf (bytesOf "TEXT/PLAIN") == bytesOf "MULTIPART") = false from rfl,
      show (mainTypeOf (bytesOf "TEXT/PLAIN") == bytesOf "APPLICATION") = false from rfl,
      show (mainTypeOf (bytesOf "TEXT/PLAIN") == bytesOf "MESSAGE") = false from rfl,
      show (mainTypeOf (bytesOf "TEXT/PLAIN") == bytesOf "TEXT") = true from rfl,
      show (mainTypeOf (bytesOf "TEXT/HTML") == bytesOf "MULTIPART") = false from rfl,
      show (mainTypeOf (bytesOf "TEXT/HTML") == bytesOf "APPLICATION") = false from rfl,
      show (mainTypeOf (bytesOf "TEXT/HTML") == bytesOf "MESSAGE") = false from rfl,
      show (mainTypeOf (bytesOf "TEXT/HTML") == bytesOf "TEXT") = true from rfl,
      show (bContains (bytesOf "TEXT/PLAIN") (bytesOf "/PLAIN")) = true from rfl,
      show (bContains (bytesOf "TEXT/HTML") (bytesOf "/PLAIN")) = false from rfl,
      show (bContains (bytesOf "TEXT/HTML") (bytesOf "/HTML")) = true from rfl,
      Bool.false_or, Bool.true_or, Bool.or_self, if_true, if_false,
      Bool.true_and, Bool.and_true, cond_true, cond_false]
    simp [classifyAltStep, nearestAlternativeAncestor, assocUpdate, altWinners,
      sortByHeaderStart, insertByHS, List.find?, hr, hp, hh,
      show (subTypeOf (bytesOf "TEXT/PLAIN") != bytesOf "HTML" &&
            subTypeOf (bytesOf "TEXT/PLAIN") != bytesOf "PLAIN") = false from rfl,
      show (subTypeOf (bytesOf "TEXT/HTML") != bytesOf "HTML" &&
            subTypeOf (bytesOf "TEXT/HTML") != bytesOf "PLAIN") = false from rfl,
      show (subTypeOf (bytesOf "TEXT/PLAIN") == bytesOf "HTML") = false from rfl,
      show (subTypeOf (bytesOf "TEXT/HTML") == bytesOf "HTML") = true from rfl,
      show (bytesOf "MULTIPART/ALTERNATIVE" == bytesOf "MULTIPART/ALTERNATIVE") = true from rfl,
      show (bContains (bytesOf "TEXT/PLAIN") (bytesOf "DELIVERY")) = false from rfl]

/-- Witness for C8 at concrete nodes, in both child orders. -/
theorem C8_witness :
    nsAlt.contentType = bytesOf "MULTIPART/ALTERNATIVE" ∧
    nsPlain.contentType = bytesOf "TEXT/PLAIN" ∧
    nsHtml.contentType = bytesOf "TEXT/HTML" ∧
    GetAlternativeShowNodes (.node nsAlt [.node nsPlain [], .node nsHtml []]) = [nsHtml] ∧
    GetAlternativeShowNodes (.node nsAlt [.node nsHtml [], .node nsPlain []]) = [nsHtml] :=
  ⟨rfl, rfl, rfl,
   (C8_alternative_prefers_html nsAlt nsPlain nsHtml rfl rfl rfl).1,
   (C8_alternative_prefers_html nsAlt nsPlain nsHtml rfl rfl rfl).2⟩

/-- Helper: `optOr` with an empty right branch. -/
theorem optOr_none_right {α} (a : Option α) : optOr a none = a := by
  cases a <;> rfl

/-- Helper: `optOr` is associative. -/
theorem optOr_assoc {α} (a b c : Option α) :
    optOr (optOr a b) c = optOr a (optOr b c) := by
  cases a <;> rfl

/-- Helper: lookup after appending one binding at the back. -/
theorem mapLookup_append_single (m : List (List Byte × List Byte)) (n v k : List Byte) :
    mapLookup (m ++ [(n, v)]) k =
      optOr (mapLookup m k) (if n = k then some v else none) := by
  induction m with
  | nil => simp [mapLookup, optOr]
  | cons p rest ih =>
    by_cases hk : p.1 = k
    · simp [mapLookup, hk, optOr]
    · simp [mapLookup, hk, ih]

/-- Helper: lookup after an insert-if-absent: the old binding wins. -/
theorem mapLookup_insertIfAbsent (m : List (List Byte × List Byte)) (n v k : List Byte) :
    mapLookup (mapInsertIfAbsent m n v) k =
      optOr (mapLookup m k) (if n = k then some v else none) := by
  unfold mapInsertIfAbsent
  split
  · rename_i hsome
    by_cases hk : n = k
    · subst hk
      cases h : mapLookup m n
      · rw [h] at hsome; simp at hsome
      · simp [optOr, h]
    · simp [hk, optOr_none_right]
  · exact mapLookup_append_single m n v k

/-- Helper: folding insert-if-absent over a pair list realises first-wins
lookup over that list. -/
theorem mapLookup_foldl_insert (occ : List (List Byte × List Byte)) :
    ∀ m k, mapLookup (occ.foldl (fun m kv => mapInsertIfAbsent m kv.1 kv.2) m) k =
      optOr (mapLookup m k) (mapLookup occ k) := by
  induction occ with
  | nil => intro m k; simp [mapLookup, optOr_none_right]
  | cons p rest ih =>
    intro m k
    simp only [List.foldl_cons]
    rw [ih, mapLookup_insertIfAbsent, optOr_assoc]
    congr 1
    show optOr (if p.1 = k then some p.2 else none) (mapLookup rest k) =
      mapLookup (p :: rest) k
    by_cases hk : p.1 = k
    · simp [mapLookup, hk, optOr]
    · simp [mapLookup, hk, optOr]

/-- Helper: the parameter loop equals the insert-if-absent fold over its own
occurrence sequence (the two recursions take the same branches). -/
theorem parseParamsLoop_eq_foldl :
    ∀ fuel current m, parseParamsLoop fuel current m =
      (paramOccurrences fuel current).foldl (fun m kv => mapInsertIfAbsent m kv.1 kv.2) m := by
  intro fuel
  induction fuel with
  | zero => intro current m; rfl
  | succ fuel ih =>
    intro current m
    match current with
    | [] => rfl
    | c :: rest =>
      show parseParamsLoop (fuel + 1) (c :: rest) m = _
      simp only [parseParamsLoop, paramOccurrences]
      split
      · rw [ih]
      · split
        · rw [ih]
        · simp only [List.foldl_cons]
          rw [ih]

/-- C9: for every header value and every key, the parameter map built by
`ParseMimeValueParams` holds exactly the FIRST parameter occurrence carrying
that (uppercased, i.e. case-insensitively compared) name; later occurrences
are ignored.  The second and third conjuncts evaluate a concrete value with a
case-insensitive duplicate: `charset=gbk; CHARSET=utf-8` stores `gbk`. -/
theorem C9_first_occurrence_wins :
    (∀ data k, mapLookup (ParseMimeValueParams data).params k =
      mapLookup (paramOccurrencesOf data) k) ∧
    paramOccurrencesOf c9value =
      [(bytesOf "CHARSET", bytesOf "gbk"), (bytesOf "CHARSET", bytesOf "utf-8")] ∧
    mapLookup (ParseMimeValueParams c9value).params (bytesOf "CHARSET") =
      some (bytesOf "gbk") := by
  refine ⟨?_, rfl, rfl⟩
  intro data k
  unfold ParseMimeValueParams paramOccurrencesOf
  dsimp only
  split
  · rfl
  · split
    · rw [parseParamsLoop_eq_foldl, mapLookup_foldl_insert]
      rfl
    · rfl

/-- Helper: a successful `Option`-monad `mapM` preserves the list length. -/
theorem mapM_option_length {α β : Type} (f : α → Option β) :
    ∀ (l : List α) (l' : List β), l.mapM f = some l' → l'.length = l.length := by
  intro l
  induction l with
  | nil =>
    intro l' h
    simp only [List.mapM_nil, pure, Option.some.injEq] at h
    subst h; rfl
  | cons a rest ih =>
    intro l' h
    simp only [List.mapM_cons] at h
    cases ha : f a with
    | none => rw [ha] at h; simp at h
    | some b =>
      rw [ha] at h
      cases hr : rest.mapM f with
      | none => rw [hr] at h; simp at h
      | some bs =>
        rw [hr] at h
        simp at h
        subst h
        simp [ih bs hr]

/-- C6 amended: for every multipart-with-boundary node that matched at least
one delimiter, the extra trailing child is appended iff `trailingTaken` holds
of the suffix of the WHOLE email buffer from the last match's `End` offset —
the raw suffix is nonempty and, whitespace-trimmed (`trailingRegion`), it
exceeds 10 bytes and contains a newline.  When appended, the child is the
recursive parse of that trimmed whole-buffer region (not of the node's own
slice) with the empty boundary list, and it sits last in `Childs` (the Go
parent pointer is the tree edge here). -/
theorem C6_amended_trailing_uses_whole_buffer
    (ext : Externals) (dc emailData : List Byte) (fuel offset : Nat)
    (part : List Byte) (bnds : List BoundaryPos) (t : MIMETree)
    (hmp : bytesHasPre (parseMimeSelf ext dc part).contentType (bytesOf "MULTIPART/") = true)
    (hbd : (parseMimeSelf ext dc part).boundary.isEmpty = false)
    (lastId : Nat)
    (hlast : (matchedIdx bnds (parseMimeSelf ext dc part).boundary).getLast? = some lastId)
    (hparse : parseMime ext dc emailData (fuel + 1) offset part bnds = some t) :
    t.childs.length =
      ((matchedIdx bnds (parseMimeSelf ext dc part).boundary).zip
        (matchedIdx bnds (parseMimeSelf ext dc part).boundary).tail).length +
      (if trailingTaken emailData (bndAt bnds lastId).stop then 1 else 0) ∧
    (trailingTaken emailData (bndAt bnds lastId).stop = true →
      t.childs.getLast? = parseMime ext dc emailData fuel (bndAt bnds lastId).stop
        (trailingRegion emailData (bndAt bnds lastId).stop) []) := by
  simp only [parseMime, rebase] at hparse
  simp only [hmp, hbd, Bool.not_true, Bool.false_eq_true, if_false] at hparse
  rw [hlast] at hparse
  dsimp only at hparse
  revert hparse
  split
  · intro hparse
    exact absurd hparse (by simp)
  · rename_i pairChilds hpc
    intro hparse
    have hlen := mapM_option_length _ _ _ hpc
    revert hparse
    split
    · split
      · rename_i htt
        split
        · intro hparse
          exact absurd hparse (by simp)
        · rename_i c hc
          intro hparse
          injection hparse with hparse
          subst hparse
          constructor
          · simp [MIMETree.childs, hlen, htt]
          · intro _
            simp [MIMETree.childs, List.getLast?_concat, hc]
      · rename_i htf
        intro hparse
        injection hparse with hparse
        subst hparse
        constructor
        · simp [MIMETree.childs, hlen, htf]
        · intro hcontra
          exact absurd hcontra htf
    · intro hparse
      exact absurd hparse (by simp)

set_option maxRecDepth 4000 in
/-- Witness for C6's amended theorem: `c6wEmail` has one matched delimiter and
a 12-byte trailing suffix with a newline, so exactly one extra child is
appended, equal to the recursive parse of the trimmed whole-buffer suffix. -/
theorem C6_amended_witness :
    bytesHasPre (parseMimeSelf ext0 (bytesOf "UTF-8") c6wEmail).contentType
      (bytesOf "MULTIPART/") = true ∧
    (parseMimeSelf ext0 (bytesOf "UTF-8") c6wEmail).boundary.isEmpty = false ∧
    (matchedIdx c6wBnds (parseMimeSelf ext0 (bytesOf "UTF-8") c6wEmail).boundary).getLast? =
      some 0 ∧
    parseMime ext0 (bytesOf "UTF-8") c6wEmail (2 + 1) 0 c6wEmail c6wBnds = some c6wTree ∧
    (c6wTree.childs.length =
      ((matchedIdx c6wBnds (parseMimeSelf ext0 (bytesOf "UTF-8") c6wEmail).boundary).zip
        (matchedIdx c6wBnds (parseMimeSelf ext0 (bytesOf "UTF-8") c6wEmail).boundary).tail).length +
      (if trailingTaken c6wEmail (bndAt c6wBnds 0).stop then 1 else 0) ∧
    (trailingTaken c6wEmail (bndAt c6wBnds 0).stop = true →
      c6wTree.childs.getLast? = parseMime ext0 (bytesOf "UTF-8") c6wEmail 2
        (bndAt c6wBnds 0).stop (trailingRegion c6wEmail (bndAt c6wBnds 0).stop) [])) :=
  ⟨rfl, rfl, rfl, rfl,
   C6_amended_trailing_uses_whole_buffer ext0 (bytesOf "UTF-8") c6wEmail 2 0 c6wEmail
     c6wBnds c6wTree rfl rfl 0 rfl rfl⟩

/-- Helper: the header loop only consumes bytes; the remaining data never
grows. -/
theorem headerLoop_rest_le :
    ∀ fuel headers logicLine dat,
      (headerLoop fuel headers logicLine dat).2.2.length ≤ dat.length := by
  intro fuel
  induction fuel with
  | zero => intro hs ll dat; exact Nat.le_refl _
  | succ fuel ih =>
    intro hs ll dat
    simp only [headerLoop]
    split
    · exact Nat.le_refl _
    · split
      · exact le_trans (ih _ _ _) (by simp)
      · rename_i idx heq
        split
        · exact (by simp [List.length_drop] : (dat.drop (idx + 1)).length ≤ dat.length)
        · split
          · exact (by simp [List.length_drop] : (dat.drop (idx + 1)).length ≤ dat.length)
          · exact le_trans (ih _ _ _) (by simp [List.length_drop])

/-- Helper: `parseMimeSelf` always has `HeaderStart = 0` and
`BodyStart + BodyLen = |input|` (the body is the suffix left after the header
block). -/
theorem parseMimeSelf_interval (ext : Externals) (dc d : List Byte) :
    (parseMimeSelf ext dc d).headerStart = 0 ∧
    (parseMimeSelf ext dc d).bodyStart + (parseMimeSelf ext dc d).bodyLen = d.length := by
  refine ⟨rfl, ?_⟩
  show d.length - (headerLoop (d.length + 2) [] [] d).2.2.length +
    (headerLoop (d.length + 2) [] [] d).2.2.length = d.length
  have h := headerLoop_rest_le (d.length + 2) [] [] d
  omega

/-- Helper: a node returned by `parseMime` spans exactly
`[offset, offset + |slice|)`: every branch stores the rebased
`parseMimeSelf` fields unchanged. -/
theorem parseMime_iLo_iHi (ext : Externals) (dc emailData : List Byte) :
    ∀ fuel offset part bnds t,
      parseMime ext dc emailData fuel offset part bnds = some t →
      iLo t = offset ∧ iHi t = offset + part.length := by
  intro fuel offset part bnds t h
  have h1 := (parseMimeSelf_interval ext dc part).1
  have h2 := (parseMimeSelf_interval ext dc part).2
  match fuel with
  | 0 => simp [parseMime] at h
  | fuel + 1 =>
    simp only [parseMime, rebase] at h
    revert h
    repeat' split
    all_goals intro h
    all_goals try exact Option.noConfusion h
    all_goals injection h with h
    all_goals subst h
    all_goals refine ⟨?_, ?_⟩ <;> simp only [iLo, iHi, MIMETree.self] <;> omega

/-- Helper: the boundary scanner emits entries in strict buffer order — each
entry has `start < stop`, consecutive entries have `stop ≤ start`, and all
entries start at or after the scan offset. -/
theorem scanBoundariesLoop_ordered (raw : List Byte) :
    ∀ fuel off, BndsOrdered (scanBoundariesLoop fuel raw off) ∧
      ∀ b ∈ scanBoundariesLoop fuel raw off, off ≤ b.start := by
  intro fuel
  induction fuel with
  | zero =>
    intro off
    exact ⟨⟨List.Pairwise.nil, fun b hb => absurd hb (List.not_mem_nil b)⟩,
          fun b hb => absurd hb (List.not_mem_nil b)⟩
  | succ fuel ih =>
    intro off
    simp only [scanBoundariesLoop]
    split
    · split
      · exact ⟨⟨List.Pairwise.nil, fun b hb => absurd hb (List.not_mem_nil b)⟩,
          fun b hb => absurd hb (List.not_mem_nil b)⟩
      · rename_i start hstart
        split
        · exact ⟨⟨List.Pairwise.nil, fun b hb => absurd hb (List.not_mem_nil b)⟩,
          fun b hb => absurd hb (List.not_mem_nil b)⟩
        · rename_i nlPos hnl
          split
          · exact ⟨⟨List.Pairwise.nil, fun b hb => absurd hb (List.not_mem_nil b)⟩,
          fun b hb => absurd hb (List.not_mem_nil b)⟩
          · have hoffstart : off ≤ start := by
              revert hstart
              split
              · intro hs; injection hs with hs; omega
              · split
                · intro hs; exact Option.noConfusion hs
                · intro hs; injection hs with hs; omega
            refine ⟨⟨?_, ?_⟩, ?_⟩
            · refine List.pairwise_cons.mpr ⟨?_, (ih _).1.1⟩
              intro b hb
              exact (ih _).2 b hb
            · intro b hb
              rcases List.mem_cons.mp hb with hb | hb
              · subst hb
                show start < start + 2 + nlPos + 1
                omega
              · exact (ih _).1.2 b hb
            · intro b hb
              rcases List.mem_cons.mp hb with hb | hb
              · subst hb
                exact hoffstart
              · have := (ih _).2 b hb
                omega
    · exact ⟨⟨List.Pairwise.nil, fun b hb => absurd hb (List.not_mem_nil b)⟩,
          fun b hb => absurd hb (List.not_mem_nil b)⟩

/-- Helper: well-ordering of boundary lists is inherited by sublists. -/
theorem BndsOrdered_sublist {l l' : List BoundaryPos} (hs : l'.Sublist l)
    (h : BndsOrdered l) : BndsOrdered l' :=
  ⟨h.1.sublist hs, fun b hb => h.2 b (hs.subset hb)⟩

/-- Helper: the empty boundary list is well-ordered. -/
theorem BndsOrdered_nil : BndsOrdered [] :=
  ⟨List.Pairwise.nil, fun b hb => absurd hb (List.not_mem_nil b)⟩

/-- Helper: the boundary sublist handed to a pair child is a sublist of the
full list. -/
theorem childBoundaries_sublist (bnds : List BoundaryPos) (a b : Nat) :
    (parseMimeChildBoundaries bnds a b).Sublist bnds := by
  unfold parseMimeChildBoundaries listSlice
  split
  · exact (List.take_sublist _ _).trans (List.drop_sublist _ _)
  · exact List.nil_sublist _

/-- Helper: matched indices are strictly increasing. -/
theorem matchedIdx_sorted (bnds : List BoundaryPos) (nb : List Byte) :
    List.Pairwise (· < ·) (matchedIdx bnds nb) :=
  (List.pairwise_lt_range _).filter _

/-- Helper: matched indices are in range. -/
theorem matchedIdx_lt_length (bnds : List BoundaryPos) (nb : List Byte) :
    ∀ i ∈ matchedIdx bnds nb, i < bnds.length := by
  intro i hi
  exact List.mem_range.mp (List.mem_of_mem_filter hi)

/-- Helper: in-range indexing lands in the list. -/
theorem bndAt_mem (l : List BoundaryPos) (i : Nat) (h : i < l.length) :
    bndAt l i ∈ l := by
  unfold bndAt
  rw [List.getD_eq_getElem?_getD, List.getElem?_eq_getElem h]
  exact List.getElem_mem h

/-- Helper: in a well-ordered boundary list, an earlier entry stops at or
before a later entry starts. -/
theorem ordered_stop_le_start {l : List BoundaryPos} (h : BndsOrdered l)
    {a b : Nat} (hab : a < b) (hb : b < l.length) :
    (bndAt l a).stop ≤ (bndAt l b).start := by
  have ha : a < l.length := lt_trans hab hb
  have hg := List.pairwise_iff_getElem.mp h.1 a b ha hb hab
  unfold bndAt
  rw [List.getD_eq_getElem?_getD, List.getElem?_eq_getElem ha,
      List.getD_eq_getElem?_getD, List.getElem?_eq_getElem hb]
  exact hg

/-- Helper: length of an in-range Go slice. -/
theorem listSlice_length {α} (l : List α) (lo hi : Nat) (h1 : lo ≤ hi)
    (h2 : hi ≤ l.length) : (listSlice l lo hi).length = hi - lo := by
  unfold listSlice
  rw [List.length_take, List.length_drop]
  omega

/-- Helper (main induction step for C2): the children built from consecutive
matched pairs are each `TreeOk`, their intervals are ordered pairwise
disjoint, they all start at or after the first match's `End`, and they all
end at or before the last match's `Start - 1` (so a trailing child starting
at the last match's `End` can be appended disjointly). -/
theorem pairChildren_spec (ext : Externals) (dc emailData : List Byte) (fuel : Nat)
    (bnds : List BoundaryPos) (ho : BndsOrdered bnds)
    (hIH : ∀ offset part bnds' t, BndsOrdered bnds' →
      parseMime ext dc emailData fuel offset part bnds' = some t → TreeOk t) :
    ∀ ms cs, List.Pairwise (· < ·) ms → (∀ i ∈ ms, i < bnds.length) →
      List.mapM (fun ab : Nat × Nat =>
        pairChild ext dc emailData fuel bnds ab.1 ab.2) (ms.zip ms.tail) = some cs →
      (∀ c ∈ cs, TreeOk c) ∧
      List.Pairwise (fun x y => iHi x ≤ iLo y) cs ∧
      (∀ c ∈ cs, (bndAt bnds (ms.headD 0)).stop ≤ iLo c) ∧
      (∀ c ∈ cs, ∀ j, ms.getLast? = some j → iHi c ≤ (bndAt bnds j).start - 1) := by
  intro ms
  induction ms with
  | nil =>
    intro cs _ _ hm
    simp only [List.zip_nil_left, List.mapM_nil, pure, Option.some.injEq] at hm
    subst hm
    exact ⟨fun c hc => absurd hc (List.not_mem_nil c), List.Pairwise.nil,
      fun c hc => absurd hc (List.not_mem_nil c),
      fun c hc => absurd hc (List.not_mem_nil c)⟩
  | cons a tl ih =>
    cases tl with
    | nil =>
      intro cs _ _ hm
      simp only [List.tail_cons, List.zip_nil_right, List.mapM_nil, pure,
        Option.some.injEq] at hm
      subst hm
      exact ⟨fun c hc => absurd hc (List.not_mem_nil c), List.Pairwise.nil,
        fun c hc => absurd hc (List.not_mem_nil c),
        fun c hc => absurd hc (List.not_mem_nil c)⟩
    | cons b rest =>
      intro cs hp hlt hm
      have hzip : ((a :: b :: rest).zip (a :: b :: rest).tail) =
          (a, b) :: ((b :: rest).zip rest) := rfl
      rw [hzip] at hm
      simp only [List.mapM_cons] at hm
      cases hc1 : pairChild ext dc emailData fuel bnds a b with
      | none => rw [hc1] at hm; simp at hm
      | some c =>
        rw [hc1] at hm
        cases hcs : List.mapM (fun ab : Nat × Nat =>
            pairChild ext dc emailData fuel bnds ab.1 ab.2) ((b :: rest).zip rest) with
        | none => rw [hcs] at hm; simp at hm
        | some cs' =>
          rw [hcs] at hm
          simp at hm
          subst hm
          -- facts about the head child c
          have hab : a < b := (List.pairwise_cons.mp hp).1 b (by simp)
          have hb_len : b < bnds.length := hlt b (by simp)
          have ha_len : a < bnds.length := hlt a (by simp)
          have hbb := ho.2 (bndAt bnds b) (bndAt_mem bnds b hb_len)
          have haa := ho.2 (bndAt bnds a) (bndAt_mem bnds a ha_len)
          unfold pairChild at hc1
          revert hc1
          dsimp only
          split
          · intro hc1
            rename_i hguard
            have hok : TreeOk c :=
              hIH _ _ _ _ (BndsOrdered_sublist (childBoundaries_sublist bnds a b) ho) hc1
            have hiv := parseMime_iLo_iHi ext dc emailData fuel
              (bndAt bnds a).stop _ _ c hc1
            have hslen : (listSlice emailData (bndAt bnds a).stop
                ((bndAt bnds b).start - 1)).length = (bndAt bnds b).start - 1 -
                (bndAt bnds a).stop :=
              listSlice_length _ _ _ (by omega) (by omega)
            have hlo : iLo c = (bndAt bnds a).stop := hiv.1
            have hhi : iHi c = (bndAt bnds b).start - 1 := by
              rw [hiv.2, hslen]; omega
            -- the tail children
            have htl := ih cs' (List.Pairwise.sublist (by simp) hp)
              (fun i hi => hlt i (by simp [hi])) hcs
            obtain ⟨hok', hpw', hhead', hlast'⟩ := htl
            have hstop_b : (bndAt bnds a).stop ≤ (bndAt bnds b).stop := by
              have := ordered_stop_le_start ho hab hb_len
              omega
            refine ⟨?_, ?_, ?_, ?_⟩
            · intro x hx
              rcases List.mem_cons.mp hx with hx | hx
              · subst hx; exact hok
              · exact hok' x hx
            · refine List.pairwise_cons.mpr ⟨?_, hpw'⟩
              intro y hy
              have h9 := hhead' y hy
              rw [List.headD_cons] at h9
              rw [hhi]
              omega
            · intro x hx
              rw [List.headD_cons]
              rcases List.mem_cons.mp hx with hx | hx
              · subst hx
                rw [hlo]
              · have h9 := hhead' x hx
                rw [List.headD_cons] at h9
                omega
            · intro x hx j hj
              rw [List.getLast?_cons_cons] at hj
              rcases List.mem_cons.mp hx with hx | hx
              · subst hx
                rw [hhi]
                have hjmem : j ∈ b :: rest := by
                  have hx2 : j ∈ ((b :: rest) : List Nat).getLast? := by
                    rw [hj]; rfl
                  obtain ⟨hne, hEq⟩ := List.mem_getLast?_eq_getLast hx2
                  rw [hEq]
                  exact List.getLast_mem hne
                rcases List.mem_cons.mp hjmem with hjb | hjr
                · subst hjb; omega
                · have hbj : b < j := (List.pairwise_cons.mp
                    (List.Pairwise.sublist (by simp) hp)).1 j hjr
                  have hj_len : j < bnds.length := hlt j (by simp [hjr])
                  have h8 := ordered_stop_le_start ho hbj hj_len
                  omega
              · exact hlast' x hx j hj
          · intro hc1
            exact Option.noConfusion hc1

/-- Helper: a leaf satisfies the sibling-disjointness invariant. -/
theorem TreeOk_leafless (s : NodeSelf) : TreeOk (.node s []) :=
  TreeOk.mk s [] List.Pairwise.nil (fun c hc => absurd hc (List.not_mem_nil c))

/-- Helper: any tree built by `parseMime` from a well-ordered boundary list
has pairwise-disjoint sibling intervals at every node. -/
theorem parseMime_TreeOk (ext : Externals) (dc emailData : List Byte) :
    ∀ fuel offset part bnds t, BndsOrdered bnds →
      parseMime ext dc emailData fuel offset part bnds = some t → TreeOk t := by
  intro fuel
  induction fuel with
  | zero => intro _ _ _ t _ h; simp [parseMime] at h
  | succ fuel ih =>
    intro offset part bnds t ho h
    simp only [parseMime, rebase] at h
    revert h
    split
    · intro h; injection h with h; subst h; exact TreeOk_leafless _
    · split
      · intro h; injection h with h; subst h; exact TreeOk_leafless _
      · -- multipart with boundary: the mapM match
        split
        · intro h; exact Option.noConfusion h
        · rename_i pairChilds heq
          -- convert the inlined lambda to pairChild (definitionally equal)
          have heq' : List.mapM (fun ab : Nat × Nat =>
              pairChild ext dc emailData fuel bnds ab.1 ab.2)
              ((matchedIdx bnds ((parseMimeSelf ext dc part).boundary)).zip
               (matchedIdx bnds ((parseMimeSelf ext dc part).boundary)).tail) =
              some pairChilds := heq
          have hspec := pairChildren_spec ext dc emailData fuel bnds ho
            (fun o p b' t' hb' hp' => ih o p b' t' hb' hp')
            (matchedIdx bnds ((parseMimeSelf ext dc part).boundary)) pairChilds
            (matchedIdx_sorted _ _) (matchedIdx_lt_length _ _) heq'
          obtain ⟨hok, hpw, hhead, hlast⟩ := hspec
          split
          · intro h; injection h with h; subst h
            exact TreeOk.mk _ _ hpw hok
          · rename_i lastId hlastEq
            split
            · split
              · rename_i htt
                split
                · intro h; exact Option.noConfusion h
                · rename_i c hc
                  intro h; injection h with h; subst h
                  have hokc : TreeOk c := ih _ _ _ _ BndsOrdered_nil hc
                  have hivc := parseMime_iLo_iHi ext dc emailData fuel
                    (bndAt bnds lastId).stop _ _ c hc
                  have hlastmem : lastId ∈
                      matchedIdx bnds ((parseMimeSelf ext dc part).boundary) := by
                    have hx2 : lastId ∈ (matchedIdx bnds
                        ((parseMimeSelf ext dc part).boundary)).getLast? := by
                      rw [hlastEq]; rfl
                    obtain ⟨hne, hEq⟩ := List.mem_getLast?_eq_getLast hx2
                    rw [hEq]
                    exact List.getLast_mem hne
                  have hlast_len : lastId < bnds.length :=
                    matchedIdx_lt_length _ _ lastId hlastmem
                  have hss := ho.2 (bndAt bnds lastId) (bndAt_mem bnds lastId hlast_len)
                  refine TreeOk.mk _ _ ?_ ?_
                  · rw [List.pairwise_append]
                    refine ⟨hpw, List.pairwise_singleton _ _, ?_⟩
                    intro x hx y hy
                    rw [List.mem_singleton.mp hy]
                    have h7 := hlast x hx lastId hlastEq
                    rw [hivc.1]
                    omega
                  · intro x hx
                    rcases List.mem_append.mp hx with hx | hx
                    · exact hok x hx
                    · rw [List.mem_singleton.mp hx]
                      exact hokc
              · intro h; injection h with h; subst h
                exact TreeOk.mk _ _ hpw hok
            · intro h; exact Option.noConfusion h

/-- C2 amended: for EVERY input buffer, whenever `EmailParserNew` completes
(does not panic), every node of the resulting tree has the intervals
`[HeaderStart, BodyStart+BodyLen)` of its children pairwise disjoint — each
child, the extra trailing child included, ends at or before the next one
begins.  (Containment of a child inside the parent's body interval, the other
half of the original claim, is refuted by `C2_counterexample`.) -/
theorem C2_amended_siblings_disjoint (ext : Externals) (dc emailData : List Byte) :
    (EmailParserNewTop ext dc emailData).elim True TreeOk := by
  unfold EmailParserNewTop
  dsimp only
  cases h : parseMime ext (if dc.isEmpty then bytesOf "UTF-8" else dc) emailData
      ((scanAllBoundaries emailData).length + 2) 0 emailData
      (scanAllBoundaries emailData) with
  | none => exact trivial
  | some t =>
    have ho : BndsOrdered (scanAllBoundaries emailData) :=
      (scanBoundariesLoop_ordered emailData (emailData.length + 1) 0).1
    exact parseMime_TreeOk _ _ _ _ _ _ _ _ ho h
